import Mathlib

/-!
Verification of the ardl reliable-transport core (`Banyc/ardl`).

This file shallowly embeds the parts of the repository that the checked
claims are about:

* `src/utils/seq32.rs` / `src/utils/seq.rs` — 32-bit wrap-around sequence
  numbers (`Seq32`);
* `src/protocol/packet_hdr.rs`, `src/protocol/frag.rs`,
  `src/protocol/packet.rs` — the wire codec;
* `src/utils/recv_buf/rwnd.rs`, `src/utils/recv_buf/recv_buf.rs`,
  `src/layer/downloader.rs` — the receive window and the Downloader;
* `src/utils/swnd.rs`, `src/utils/fast_retransmit/dup.rs`,
  `src/utils/fast_retransmit_wnd.rs`, `src/layer/uploader/frag_bundler.rs`,
  `src/layer/uploader/uploader.rs` — the send window and the Uploader.

Machine integers are modelled as `Nat` with explicit `% 2^32` wrap-around
where the Rust code wraps.  Byte buffers are `List Nat` with byte values
below 256 produced by the encoders.  Rust panics (`unwrap`, `assert!`)
that are reachable in the modelled functions are made explicit as
`Except`-style error results.
-/

namespace Ardl



/-- Number of distinct `u32` values; `Wrapping<u32>` arithmetic is modulo this. -/
def w32 : Nat := 4294967296

/-- The comparison threshold `u32::MAX / 2` used by `Seq32::cmp`
(`src/utils/seq32.rs` line 58): integer division of `4294967295` by 2. -/
def halfMax : Nat := 2147483647

/-- Wrap-around comparison, translated from `impl Ord for Seq32`
(`src/utils/seq32.rs` lines 53-74; `src/utils/seq.rs` lines 46-67 are
byte-for-byte identical).  The first branch mirrors `Ordering::Less`
(numeric `a < b`), then `Ordering::Equal`, then `Ordering::Greater`. -/
def Seq32.cmp (a b : Nat) : Ordering :=
  if a < b then
    if b - a ≤ halfMax then .lt else .gt
  else if a = b then .eq
  else if a - b ≤ halfMax then .gt else .lt

/-- `a < b` under the wrap-around order (Rust `<` is `cmp == Less`). -/
def Seq32.blt (a b : Nat) : Bool :=
  match Seq32.cmp a b with
  | .lt => true
  | _ => false

/-- `a <= b` under the wrap-around order (Rust `<=` is `cmp != Greater`). -/
def Seq32.ble (a b : Nat) : Bool :=
  match Seq32.cmp a b with
  | .gt => false
  | _ => true

/-- `Seq::add_usize` from `src/utils/seq32.rs`: wrapping addition. -/
def Seq32.addUsize (a n : Nat) : Nat := (a + n) % w32

/-- `Seq::sub` from `src/utils/seq32.rs`: wrapping subtraction
`Wrapping(a) - Wrapping(b)`; meaningful for `b < w32`. -/
def Seq32.sub (a b : Nat) : Nat := (a + w32 - b) % w32

/-- `Seq32::max` (`src/utils/seq32.rs` lines 22-28): `if lhs < rhs { rhs } else { lhs }`. -/
def Seq32.max (a b : Nat) : Nat := if Seq32.blt a b then b else a

/-- Offset of `b` measured forward from `a` on the 32-bit circle,
`(b - a) mod 2^32`.  Not part of the source; used to state theorems. -/
def sdist (a b : Nat) : Nat := (b + w32 - a) % w32

/-! ## Wire codec (`src/protocol/packet_hdr.rs`, `src/protocol/frag.rs`,
`src/protocol/packet.rs`)

Byte buffers are `List Nat`; the big-endian readers mirror
`byteorder::ReadBytesExt` on a cursor, returning the value and the
remaining bytes.  `BufSlice::pop_front` is the returned rest. -/

/-- `PACKET_HDR_LEN` from `src/protocol/packet_hdr.rs`. -/
def packetHdrLen : Nat := 6

/-- `PUSH_HDR_LEN` from `src/protocol/frag.rs`. -/
def pushHdrLen : Nat := 9

/-- `ACK_HDR_LEN` from `src/protocol/frag.rs`. -/
def ackHdrLen : Nat := 5

/-- Big-endian bytes of a `u16` (`write_u16::<BigEndian>`). -/
def u16Bytes (n : Nat) : List Nat := [n / 256 % 256, n % 256]

/-- Big-endian bytes of a `u32` (`write_u32::<BigEndian>`); a wider `Nat`
is truncated exactly as a Rust `as u32` cast would be. -/
def u32Bytes (n : Nat) : List Nat :=
  [n / 16777216 % 256, n / 65536 % 256, n / 256 % 256, n % 256]

/-- `read_u8` on a cursor: first byte plus the rest. -/
def readU8 : List Nat → Option (Nat × List Nat)
  | [] => none
  | b :: rest => some (b, rest)

/-- `read_u16::<BigEndian>` on a cursor. -/
def readU16 : List Nat → Option (Nat × List Nat)
  | b0 :: b1 :: rest => some (b0 * 256 + b1, rest)
  | _ => none

/-- `read_u32::<BigEndian>` on a cursor. -/
def readU32 : List Nat → Option (Nat × List Nat)
  | b0 :: b1 :: b2 :: b3 :: rest =>
      some (((b0 * 256 + b1) * 256 + b2) * 256 + b3, rest)
  | _ => none

/-- `FragCommand` from `src/protocol/frag.rs`: a Push carries its body
bytes (the `Body::Slice`/`Body::Pasta` distinction only affects sharing,
not the bytes, and is dropped). -/
inductive FragCommand where
  | push (body : List Nat)
  | ack
deriving DecidableEq, Repr

/-- `Frag` from `src/protocol/frag.rs`. -/
structure Frag where
  seq : Nat
  cmd : FragCommand
deriving DecidableEq, Repr

/-- `PacketHeader` from `src/protocol/packet_hdr.rs`. -/
structure PacketHeader where
  rwnd : Nat
  nack : Nat
deriving DecidableEq, Repr

/-- `Packet` from `src/protocol/packet.rs`. -/
structure Packet where
  hdr : PacketHeader
  frags : List Frag
deriving DecidableEq, Repr

/-- `DecodingError::Decoding { field }` from `src/protocol`. -/
inductive DecodingError where
  | decoding (field : String)
deriving DecidableEq, Repr

/-- `Frag::len` (`src/protocol/frag.rs` lines 172-178): wire size. -/
def Frag.len (f : Frag) : Nat :=
  match f.cmd with
  | .push body => pushHdrLen + body.length
  | .ack => ackHdrLen

/-- The invariant enforced by `FragBuilder::build` / `Frag::check_rep`:
a Push body is non-empty.  This is the claim's notion of a valid fragment. -/
def Frag.claimValid (f : Frag) : Prop :=
  match f.cmd with
  | .push body => body ≠ []
  | .ack => True

/-- Well-formedness of a fragment as a value of the Rust types: the
sequence is a `u32` and a Push body is non-empty with a length that fits
in the `u32` length field. -/
def Frag.wf (f : Frag) : Prop :=
  f.seq < w32 ∧
    match f.cmd with
    | .push body => 0 < body.length ∧ body.length < w32
    | .ack => True

/-- `Frag::append_to` (`src/protocol/frag.rs` lines 116-150): 4-byte
big-endian seq, 1-byte command (`CommandType::Push = 0`,
`CommandType::Ack = 1`), and for a Push the 4-byte big-endian body
length (`body.len() as u32`) followed by the body bytes. -/
def Frag.appendTo (f : Frag) : List Nat :=
  match f.cmd with
  | .push body => u32Bytes f.seq ++ [0] ++ u32Bytes body.length ++ body
  | .ack => u32Bytes f.seq ++ [1]

/-- `Frag::from_slice` (`src/protocol/frag.rs` lines 75-114): reads seq,
command byte, and for a Push a non-zero length and exactly that many body
bytes; any failure is a `Decoding` error naming the field. -/
def Frag.fromSlice (bytes : List Nat) : Except DecodingError (Frag × List Nat) :=
  match readU32 bytes with
  | none => .error (.decoding "seq")
  | some (seq, r1) =>
    match readU8 r1 with
    | none => .error (.decoding "cmd")
    | some (cmd, r2) =>
      if cmd = 0 then
        match readU32 r2 with
        | none => .error (.decoding "len")
        | some (len, r3) =>
          if len = 0 then .error (.decoding "len")
          else if len ≤ r3.length then
            .ok (⟨seq, .push (r3.take len)⟩, r3.drop len)
          else .error (.decoding "body")
      else if cmd = 1 then .ok (⟨seq, .ack⟩, r2)
      else .error (.decoding "cmd")

/-- `PacketHeader::append_to` (`src/protocol/packet_hdr.rs` lines 62-71). -/
def PacketHeader.appendTo (h : PacketHeader) : List Nat :=
  u16Bytes h.rwnd ++ u32Bytes h.nack

/-- `PacketHeader::from_slice` (`src/protocol/packet_hdr.rs` lines 43-59). -/
def PacketHeader.fromSlice (bytes : List Nat) :
    Except DecodingError (PacketHeader × List Nat) :=
  match readU16 bytes with
  | none => .error (.decoding "rwnd")
  | some (rwnd, r1) =>
    match readU32 r1 with
    | none => .error (.decoding "nack")
    | some (nack, r2) => .ok (⟨rwnd, nack⟩, r2)

/-- The fragment loop of `Packet::append_to` (`src/protocol/packet.rs`
lines 41-47). -/
def encodeFrags : List Frag → List Nat
  | [] => []
  | f :: fs => f.appendTo ++ encodeFrags fs

/-- `Packet::append_to`: header bytes then each fragment in order. -/
def Packet.appendTo (p : Packet) : List Nat :=
  p.hdr.appendTo ++ encodeFrags p.frags

/-- The `while !slice.is_empty()` fragment loop of `Packet::from_slice`
(`src/protocol/packet.rs` lines 30-34).  The loop is modelled with a fuel
argument; since every fragment consumes at least five bytes, fuel equal
to the buffer length (as passed by `Packet.fromSlice`) never runs out. -/
def decodeFrags : Nat → List Nat → Except DecodingError (List Frag)
  | _, [] => .ok []
  | 0, _ :: _ => .error (.decoding "fuel")
  | fuel + 1, b :: bs =>
    match Frag.fromSlice (b :: bs) with
    | .error e => .error e
    | .ok (f, rest) =>
      match decodeFrags fuel rest with
      | .error e => .error e
      | .ok fs => .ok (f :: fs)

/-- `Packet::from_slice` (`src/protocol/packet.rs` lines 28-39): parse the
header, then fragments until the buffer is exhausted; decoding consumes
the whole buffer by construction of the loop. -/
def Packet.fromSlice (bytes : List Nat) : Except DecodingError Packet :=
  match PacketHeader.fromSlice bytes with
  | .error e => .error e
  | .ok (hdr, r) =>
    match decodeFrags r.length r with
    | .error e => .error e
    | .ok frags => .ok ⟨hdr, frags⟩

/-- The concrete packet refuting claim C6 as stated: one Push fragment
whose body has exactly `2^32` bytes.  It satisfies the claim's validity
condition (non-empty body) but `body.len() as u32` truncates to zero on
encode, so decoding fails. -/
def cexC6 : Packet :=
  { hdr := { rwnd := 0, nack := 0 },
    frags := [{ seq := 0, cmd := .push (List.replicate w32 0) }] }

/-! ## Association-list model of `BTreeMap`

`Rwnd` and `Swnd` store their windows in a `BTreeMap`.  The receive
window only ever looks a key up, inserts a key, or removes a key, so an
association list with unique keys is a faithful model there; the send
window additionally iterates in key order and is modelled below by a
list kept sorted under the wrap-around order. -/

variable {α : Type}

def alLookup (k : Nat) : List (Nat × α) → Option α
  | [] => none
  | (k', v) :: rest => if k' = k then some v else alLookup k rest

def alInsert (k : Nat) (v : α) : List (Nat × α) → List (Nat × α)
  | [] => [(k, v)]
  | (k', v') :: rest => if k' = k then (k, v) :: rest else (k', v') :: alInsert k v rest

def alErase (k : Nat) : List (Nat × α) → List (Nat × α)
  | [] => []
  | (k', v') :: rest => if k' = k then rest else (k', v') :: alErase k rest

/-! ## Receive window (`src/utils/recv_buf/rwnd.rs`) -/

/-- `SeqLocationToRwnd` (`src/utils/recv_buf`). -/
inductive SeqLocationToRwnd where
  | inRecvWindow
  | atRecvWindowStart
  | tooLate
  | tooEarly
deriving DecidableEq, Repr

/-- `Rwnd` (`src/utils/recv_buf/rwnd.rs`): window map, free-slot counter
`size`, and the next expected sequence `start`. -/
structure Rwnd (α : Type) where
  wnd : List (Nat × α)
  size : Nat
  start : Nat
deriving DecidableEq, Repr

/-- `Rwnd::new`. -/
def Rwnd.new (size : Nat) : Rwnd α := { wnd := [], size := size, start := 0 }

/-- `Rwnd::increment_size`. -/
def Rwnd.incrementSize (r : Rwnd α) : Rwnd α := { r with size := r.size + 1 }

/-- `Rwnd::location` (`src/utils/recv_buf/rwnd.rs` lines 66-78). -/
def Rwnd.location (r : Rwnd α) (seq : Nat) : SeqLocationToRwnd :=
  if ¬ Seq32.ble r.start seq = true then .tooLate
  else if ¬ Seq32.blt seq (Seq32.addUsize r.start r.size) = true then .tooEarly
  else if r.start = seq then .atRecvWindowStart
  else .inRecvWindow

/-- `Rwnd::is_acceptable`. -/
def Rwnd.isAcceptable (r : Rwnd α) (seq : Nat) : Bool :=
  match r.location seq with
  | .inRecvWindow => true
  | .atRecvWindowStart => true
  | .tooLate => false
  | .tooEarly => false

/-- The map insertion performed by `Rwnd::insert`.  The source panics when
`!is_acceptable(seq)`; every caller in `RecvBuf` checks `location` first,
so that branch is unreachable and the model keeps only the insertion. -/
def Rwnd.insertSeq (r : Rwnd α) (seq : Nat) (v : α) : Rwnd α :=
  { r with wnd := alInsert seq v r.wnd }

/-- `Rwnd::wnd_proceed`: advance `start`, decrement the free-slot count.
`size` is positive at every (reachable) call site, which the receive
buffer invariant below makes precise; `Nat` subtraction stands in for the
`usize` decrement. -/
def Rwnd.wndProceed (r : Rwnd α) : Rwnd α :=
  { r with start := Seq32.addUsize r.start 1, size := r.size - 1 }

/-- `Rwnd::insert_then_pop_next` (`src/utils/recv_buf/rwnd.rs` lines
92-105): at `start` the value bypasses the map and the window advances;
otherwise it is stored. -/
def Rwnd.insertThenPopNext (r : Rwnd α) (seq : Nat) (v : α) : Option α × Rwnd α :=
  if seq = r.start then (some v, r.wndProceed)
  else (none, r.insertSeq seq v)

/-- `Rwnd::pop_next` (`src/utils/recv_buf/rwnd.rs` lines 107-118). -/
def Rwnd.popNext (r : Rwnd α) : Option α × Rwnd α :=
  match alLookup r.start r.wnd with
  | some v => (some v, { r with wnd := alErase r.start r.wnd }.wndProceed)
  | none => (none, r)

/-! ## Receive buffer (`src/utils/recv_buf/recv_buf.rs`) -/

/-- `RecvBuf`: the window plus the ordered ready queue (`sorted`) and the
constant total capacity `len`.  `check_rep` in the source asserts
`rwnd.size() + sorted.len() == len` after every operation. -/
structure RecvBuf (α : Type) where
  rwnd : Rwnd α
  sorted : List α
  len : Nat
deriving DecidableEq, Repr

/-- `RecvBuf::new`. -/
def RecvBuf.new (len : Nat) : RecvBuf α :=
  { rwnd := Rwnd.new len, sorted := [], len := len }

/-- `RecvBuf::pop_front` (`src/utils/recv_buf/recv_buf.rs` lines 37-46). -/
def RecvBuf.popFront (b : RecvBuf α) : Option α × RecvBuf α :=
  match b.sorted with
  | [] => (none, b)
  | x :: rest => (some x, { b with sorted := rest, rwnd := b.rwnd.incrementSize })

/-- The `while let Some(v) = self.rwnd.pop_next()` drain loop inside
`RecvBuf::insert`; the fuel is the map size, which bounds the number of
successful pops. -/
def RecvBuf.drainLoop : Nat → Rwnd α → List α → Rwnd α × List α
  | 0, r, acc => (r, acc)
  | fuel + 1, r, acc =>
    match r.popNext with
    | (some v, r') => RecvBuf.drainLoop fuel r' (acc ++ [v])
    | (none, r') => (r', acc)

/-- `RecvBuf::insert` (`src/utils/recv_buf/recv_buf.rs` lines 48-70). -/
def RecvBuf.insert (b : RecvBuf α) (seq : Nat) (v : α) :
    SeqLocationToRwnd × RecvBuf α :=
  match b.rwnd.location seq with
  | .inRecvWindow => (.inRecvWindow, { b with rwnd := b.rwnd.insertSeq seq v })
  | .tooLate => (.tooLate, b)
  | .tooEarly => (.tooEarly, b)
  | .atRecvWindowStart =>
    match b.rwnd.insertThenPopNext seq v with
    | (some v', r1) =>
      match RecvBuf.drainLoop r1.wnd.length r1 (b.sorted ++ [v']) with
      | (r2, sorted2) => (.atRecvWindowStart, { b with rwnd := r2, sorted := sorted2 })
    | (none, r1) =>
      -- unreachable: in this branch `seq == start`, so the value is
      -- always returned (`insert_then_pop_next(..).unwrap()` in source)
      (.atRecvWindowStart, { b with rwnd := r1 })

/-- `RecvBuf::next_seq_to_receive`. -/
def RecvBuf.nextSeqToReceive (b : RecvBuf α) : Nat := b.rwnd.start

/-- `RecvBuf::rwnd_size` (`src/utils/recv_buf/recv_buf.rs` lines 77-80). -/
def RecvBuf.rwndSize (b : RecvBuf α) : Nat := b.rwnd.size

/-! ## Downloader (`src/layer/downloader.rs`) -/

/-- `LocalStat` of the Downloader. -/
structure DownloaderStat where
  latePushes : Nat
  earlyPushes : Nat
  outOfOrders : Nat
  decodingErrors : Nat
  packets : Nat
  acks : Nat
  pushes : Nat
deriving DecidableEq, Repr

/-- `SetUploadState` (`src/layer/mod.rs`), the delta handed to the
Uploader. -/
structure SetUploadState where
  remoteRwndSize : Nat
  remoteNack : Nat
  localNextSeqToReceive : Nat
  remoteSeqsToAck : List Nat
  ackedLocalSeqs : List Nat
  localRwndSize : Nat
deriving DecidableEq, Repr

/-- `Downloader` state. -/
structure Downloader where
  recvBuf : RecvBuf (List Nat)
  leftover : Option (List Nat)
  stat : DownloaderStat
deriving DecidableEq, Repr

/-- `downloader::Error`. -/
inductive DownloadError where
  | decoding
deriving DecidableEq, Repr

/-- `DownloaderBuilder::build`. -/
def DownloaderBuilder.build (recvBufLen : Nat) : Downloader :=
  { recvBuf := RecvBuf.new recvBufLen,
    leftover := none,
    stat := { latePushes := 0, earlyPushes := 0, outOfOrders := 0,
              decodingErrors := 0, packets := 0, acks := 0, pushes := 0 } }

/-- `FragCommand` of the fragment header used by the Downloader
(`FragHeader` from `frag_hdr.rs`): a Push carries only its body length. -/
inductive FragHdrCommand where
  | push (len : Nat)
  | ack
deriving DecidableEq, Repr

/-- `FragHeader::from_bytes` (`frag_hdr.rs` lines 56-80): seq, command
byte (`0 = Push`, `1 = Ack`), and for a Push a non-zero 4-byte length. -/
def FragHeader.fromBytes (bytes : List Nat) :
    Except DecodingError ((Nat × FragHdrCommand) × List Nat) :=
  match readU32 bytes with
  | none => .error (.decoding "seq")
  | some (seq, r1) =>
    match readU8 r1 with
    | none => .error (.decoding "cmd")
    | some (cmd, r2) =>
      if cmd = 0 then
        match readU32 r2 with
        | none => .error (.decoding "len")
        | some (len, r3) =>
          if len = 0 then .error (.decoding "len")
          else .ok ((seq, .push len), r3)
      else if cmd = 1 then .ok ((seq, .ack), r2)
      else .error (.decoding "cmd")

/-- `BufRdr::take_precisely`: exactly `n` bytes or failure. -/
def takePrecisely (n : Nat) (bytes : List Nat) : Option (List Nat × List Nat) :=
  if n ≤ bytes.length then some (bytes.take n, bytes.drop n) else none

/-- The `FragCommand::Push` arm of the loop body of
`Downloader::handle_frags` (`src/layer/downloader.rs` lines 163-204),
after the body has been taken: insert into the receive buffer, schedule
an ACK for every location except `TooEarly`, and update the per-location
statistics. -/
def Downloader.handlePush (d : Downloader) (seq : Nat) (body : List Nat)
    (remoteSeqsToAck : List Nat) : Downloader × List Nat :=
  match d.recvBuf.insert seq body with
  | (location, rb) =>
    match location with
    | .inRecvWindow =>
      ({ d with recvBuf := rb,
                stat := { d.stat with outOfOrders := d.stat.outOfOrders + 1,
                                      pushes := d.stat.pushes + 1 } },
        remoteSeqsToAck ++ [seq])
    | .atRecvWindowStart =>
      ({ d with recvBuf := rb,
                stat := { d.stat with pushes := d.stat.pushes + 1 } },
        remoteSeqsToAck ++ [seq])
    | .tooLate =>
      ({ d with recvBuf := rb,
                stat := { d.stat with latePushes := d.stat.latePushes + 1,
                                      pushes := d.stat.pushes + 1 } },
        remoteSeqsToAck ++ [seq])
    | .tooEarly =>
      ({ d with recvBuf := rb,
                stat := { d.stat with earlyPushes := d.stat.earlyPushes + 1,
                                      pushes := d.stat.pushes + 1 } },
        remoteSeqsToAck)

/-- The result record of `Downloader::handle_frags`. -/
structure HandleFragsStateChanges where
  remoteSeqsToAck : List Nat
  ackedLocalSeqs : List Nat
deriving DecidableEq, Repr

/-- `Downloader::handle_frags` (`src/layer/downloader.rs` lines 140-216):
loop over the remaining bytes; a fragment that fails to parse (bad
header, zero `len`, truncated body) increments `decoding_errors` and
breaks out of the loop — it does *not* fail the packet.  The fuel is the
byte count; each iteration consumes at least five bytes. -/
def Downloader.handleFrags :
    Nat → Downloader → List Nat → List Nat → List Nat →
      Downloader × HandleFragsStateChanges
  | 0, d, _, acks, ackedLocal => (d, ⟨acks, ackedLocal⟩)
  | fuel + 1, d, bytes, acks, ackedLocal =>
    if bytes = [] then (d, ⟨acks, ackedLocal⟩)
    else
      match FragHeader.fromBytes bytes with
      | .error _ =>
        ({ d with stat := { d.stat with
            decodingErrors := d.stat.decodingErrors + 1 } }, ⟨acks, ackedLocal⟩)
      | .ok ((seq, cmd), rest) =>
        match cmd with
        | .push len =>
          if len = 0 then
            -- mirrored from the source's re-check; `FragHeader::from_bytes`
            -- has already rejected `len == 0`, so this arm is dead
            ({ d with stat := { d.stat with
                decodingErrors := d.stat.decodingErrors + 1 } }, ⟨acks, ackedLocal⟩)
          else
            match takePrecisely len rest with
            | none =>
              ({ d with stat := { d.stat with
                  decodingErrors := d.stat.decodingErrors + 1 } }, ⟨acks, ackedLocal⟩)
            | some (body, rest') =>
              match d.handlePush seq body acks with
              | (d', acks') => Downloader.handleFrags fuel d' rest' acks' ackedLocal
        | .ack =>
          Downloader.handleFrags fuel
            { d with stat := { d.stat with acks := d.stat.acks + 1 } }
            rest acks (ackedLocal ++ [seq])

/-- `Downloader::input_packet` + `Downloader::handle_packet`
(`src/layer/downloader.rs` lines 102-137): a bad 6-byte packet header is
the only `Decoding` failure; otherwise the fragments are processed and a
`SetUploadState` is assembled. -/
def Downloader.inputPacket (d : Downloader) (bytes : List Nat) :
    Except DownloadError SetUploadState × Downloader :=
  match PacketHeader.fromSlice bytes with
  | .error _ =>
    (.error .decoding,
      { d with stat := { d.stat with
          decodingErrors := d.stat.decodingErrors + 1 } })
  | .ok (hdr, rest) =>
    match Downloader.handleFrags rest.length d rest [] [] with
    | (d1, changes) =>
      let d2 := { d1 with stat := { d1.stat with packets := d1.stat.packets + 1 } }
      (.ok { remoteRwndSize := hdr.rwnd,
             remoteNack := hdr.nack,
             localNextSeqToReceive := d2.recvBuf.nextSeqToReceive,
             remoteSeqsToAck := changes.remoteSeqsToAck,
             ackedLocalSeqs := changes.ackedLocalSeqs,
             localRwndSize := d2.recvBuf.rwndSize }, d2)

/-- `Downloader::recv` (`src/layer/downloader.rs` lines 70-74). -/
def Downloader.recv (d : Downloader) : Option (List Nat) × Downloader :=
  match d.recvBuf.popFront with
  | (received, rb) => (received, { d with recvBuf := rb })

/-- Whether an `Except` value is the `ok` case. -/
def exceptIsOk {ε β : Type} : Except ε β → Bool
  | .ok _ => true
  | .error _ => false

/-- The concrete packet refuting claim C2: a valid 6-byte header
(`rwnd = 2`, `nack = 0`), then a well-formed Ack fragment for sequence 1,
then a fragment whose command byte is 7 (unknown). -/
def c2Bytes : List Nat := [0, 2, 0, 0, 0, 0, 0, 0, 0, 1, 1, 0, 0, 0, 2, 7]

/-- The concrete packet refuting claim C4: a valid header then a Push for
sequence 1 (out of order, body `[5]`), which is stored in the window map. -/
def c4Bytes : List Nat := [0, 2, 0, 0, 0, 0, 0, 0, 0, 1, 0, 0, 0, 0, 1, 5]

/-! ## Receive-buffer representation invariant

`RecvBuf::check_rep` asserts `rwnd.size() + sorted.len() == len` after
every operation.  Establishing that this assertion is maintained (and
that the `usize` decrement in `wnd_proceed` never underflows) requires
the window-key invariant that every stored key lies strictly inside the
window, measured by its forward offset from `start`. -/

def alKeys (l : List (Nat × α)) : List Nat := l.map Prod.fst

/-- Keys of the receive window lie strictly inside the current window:
positive forward offset from `start`, below the free-slot count. -/
def RwndWeakInv (r : Rwnd α) : Prop :=
  r.start < w32 ∧ (alKeys r.wnd).Nodup ∧
    ∀ p ∈ r.wnd, p.1 < w32 ∧ sdist r.start p.1 < r.size

def RwndStrongInv (r : Rwnd α) : Prop :=
  RwndWeakInv r ∧ ∀ p ∈ r.wnd, 0 < sdist r.start p.1

/-- The receive-buffer representation invariant: the window-key invariant
plus the `check_rep` equation `rwnd.size + |sorted| = len`, with the
capacity below `2^31` (the configuration bounds it by `u16::MAX`). -/
def RecvBufInv (b : RecvBuf α) : Prop :=
  RwndStrongInv b.rwnd ∧ b.rwnd.size + b.sorted.length = b.len ∧
    b.len < 2147483648

/-! ## Send window (`src/utils/swnd.rs`) -/

/-- Sorted insertion under the wrap-around order, modelling
`BTreeMap::insert` keyed by `Seq32` (replace on an equal key, otherwise
keep the comparator order). -/
def btInsert (k : Nat) (v : α) : List (Nat × α) → List (Nat × α)
  | [] => [(k, v)]
  | (k', v') :: rest =>
    if k = k' then (k, v) :: rest
    else if Seq32.blt k k' then (k, v) :: (k', v') :: rest
    else (k', v') :: btInsert k v rest

/-- `Swnd` (`src/utils/swnd.rs`): the in-flight map (iteration order is
the wrap-around key order), the advertised remote window, the next
sequence to allocate (`end`, exclusive), and the absolute cap. -/
structure Swnd (α : Type) where
  wnd : List (Nat × α)
  remoteRwndSize : Nat
  endSeq : Nat
  wndSizeCap : Nat
deriving DecidableEq, Repr

/-- `Swnd::new`. -/
def Swnd.new (wndSizeCap : Nat) : Swnd α :=
  { wnd := [], remoteRwndSize := 0, endSeq := 0, wndSizeCap := wndSizeCap }

/-- `Swnd::set_remote_rwnd_size`. -/
def Swnd.setRemoteRwndSize (s : Swnd α) (n : Nat) : Swnd α :=
  { s with remoteRwndSize := n }

/-- `Swnd::start` (`src/utils/swnd.rs` lines 67-77): the first key in
iteration order, or `end` when the window is empty. -/
def Swnd.start (s : Swnd α) : Nat :=
  match s.wnd with
  | [] => s.endSeq
  | (k, _) :: _ => k

/-- `Swnd::size` (`src/utils/swnd.rs` lines 80-83): wrap-aware distance
from the oldest in-flight sequence to the next sequence to allocate. -/
def Swnd.size (s : Swnd α) : Nat := Seq32.sub s.endSeq s.start

/-- `Swnd::is_full` (`src/utils/swnd.rs` lines 61-64):
`max(remote_rwnd, 1) <= size || wnd_size_cap <= size`. -/
def Swnd.isFull (s : Swnd α) : Bool :=
  decide (Nat.max s.remoteRwndSize 1 ≤ s.size) || decide (s.wndSizeCap ≤ s.size)

/-- `Swnd::is_empty`: `self.wnd.len() == 0`. -/
def Swnd.isEmpty (s : Swnd α) : Bool := decide (s.wnd.length = 0)

/-- `Swnd::push_back` (`src/utils/swnd.rs` lines 85-92): insert at `end`,
then advance `end`.  The source asserts `!is_full()`; the only caller
(`emit_frags`'s new-send loop) tests exactly that condition first. -/
def Swnd.pushBack (s : Swnd α) (v : α) : Swnd α :=
  { s with wnd := btInsert s.endSeq v s.wnd, endSeq := Seq32.addUsize s.endSeq 1 }

/-- `Swnd::remove` (`src/utils/swnd.rs` lines 94-99): `BTreeMap::remove`,
returning the removed value. -/
def Swnd.remove (s : Swnd α) (ack : Nat) : Option α × Swnd α :=
  match alLookup ack s.wnd with
  | some v => (some v, { s with wnd := alErase ack s.wnd })
  | none => (none, s)

/-- The key-collection loop of `Swnd::remove_before`
(`src/utils/swnd.rs` lines 101-109): walk the map in order, collecting
keys while `seq < nack`, stopping at the first key that is not. -/
def collectBefore (nack : Nat) : List (Nat × α) → List Nat
  | [] => []
  | (k, _) :: rest =>
    if Seq32.blt k nack then k :: collectBefore nack rest else []

/-- `Swnd::remove_before` (`src/utils/swnd.rs` lines 101-115). -/
def Swnd.removeBefore (s : Swnd α) (nack : Nat) : Swnd α :=
  { s with wnd := (collectBefore nack s.wnd).foldl (fun w k => alErase k w) s.wnd }

/-- Modelled from the spec: `Swnd::range_mut(start, end)` is called by the
fast-retransmission step of `emit` but its definition is not among the
files under `src/` (the snapshot mixes revisions); §4.6 step 4 of the
spec reads "for every swnd entry whose sequence lies in the
fast-retransmit window's `[start, end)`", i.e. the in-order entries
within the wrap-around range, which is `BTreeMap::range`'s meaning. -/
def Swnd.range (s : Swnd α) (a b : Nat) : List (Nat × α) :=
  s.wnd.filter (fun p => Seq32.ble a p.1 && Seq32.blt p.1 b)

/-- Modelled from the spec: `Swnd::value_mut(&seq)` (used by the RTO loop
of `emit`) is a map lookup; the method body is not under `src/`. -/
def Swnd.value (s : Swnd α) (seq : Nat) : Option α := alLookup seq s.wnd

/-! ## Duplicate-NACK counter and fast-retransmission window
(`src/utils/fast_retransmit/dup.rs`, `src/utils/dup/threshold.rs`,
`src/utils/fast_retransmit_wnd.rs`) -/

/-- `ConsecutiveDuplicateCount` (`src/utils/fast_retransmit/dup.rs`
lines 1-30), specialised to `Seq32` keys. -/
structure ConsecutiveDuplicateCount where
  value : Nat
  count : Nat
deriving DecidableEq, Repr

/-- `ConsecutiveDuplicateCount::new`: count starts at zero. -/
def ConsecutiveDuplicateCount.new (value : Nat) : ConsecutiveDuplicateCount :=
  { value := value, count := 0 }

/-- `ConsecutiveDuplicateCount::set` (`dup.rs` lines 18-25): a repeat of
the current value increments the count, a different value resets it. -/
def ConsecutiveDuplicateCount.set (c : ConsecutiveDuplicateCount) (v : Nat) :
    ConsecutiveDuplicateCount :=
  if v = c.value then { value := v, count := c.count + 1 }
  else { value := v, count := 0 }

/-- Modelled from the spec: `recount` is called by
`DuplicateThreshold::recount` (`src/utils/dup/threshold.rs`), but the
module defining it (`utils/dup/mod.rs`) is not among the files under
`src/`.  Consistent with the name and §3 of the spec ("a consecutive-
duplicate counter keyed by the remote NACK value" that re-arms after the
window activates), it resets the consecutive count to zero, keeping the
tracked value. -/
def ConsecutiveDuplicateCount.recount (c : ConsecutiveDuplicateCount) :
    ConsecutiveDuplicateCount :=
  { c with count := 0 }

/-- `DuplicateThreshold` (`src/utils/dup/threshold.rs`). -/
structure DuplicateThreshold where
  duplicate : ConsecutiveDuplicateCount
  dupThresholdToActivate : Nat
deriving DecidableEq, Repr

def DuplicateThreshold.new (defaultValue : Nat) (dupLimitToActivate : Nat) :
    DuplicateThreshold :=
  { duplicate := ConsecutiveDuplicateCount.new defaultValue,
    dupThresholdToActivate := dupLimitToActivate }

/-- `DuplicateThreshold::is_activated`: activation is inclusive
(`threshold <= count`). -/
def DuplicateThreshold.isActivated (t : DuplicateThreshold) : Bool :=
  decide (t.dupThresholdToActivate ≤ t.duplicate.count)

def DuplicateThreshold.set (t : DuplicateThreshold) (v : Nat) : DuplicateThreshold :=
  { t with duplicate := t.duplicate.set v }

def DuplicateThreshold.recount (t : DuplicateThreshold) : DuplicateThreshold :=
  { t with duplicate := t.duplicate.recount }

/-- `FastRetransmissionWnd` (`src/utils/fast_retransmit_wnd.rs`): a
half-open `[start, end)` range plus the duplicate-NACK threshold. -/
structure FastRetransmissionWnd where
  start : Nat
  endSeq : Nat
  duplicateThreshold : DuplicateThreshold
deriving DecidableEq, Repr

/-- `FastRetransmissionWnd::new` (`fast_retransmit_wnd.rs` lines 21-32):
both bounds and the tracked NACK value start at sequence zero. -/
def FastRetransmissionWnd.new (nackDuplicateLimitToActivate : Nat) :
    FastRetransmissionWnd :=
  { start := 0, endSeq := 0,
    duplicateThreshold := DuplicateThreshold.new 0 nackDuplicateLimitToActivate }

def FastRetransmissionWnd.contains (w : FastRetransmissionWnd) (seq : Nat) : Bool :=
  Seq32.ble w.start seq && Seq32.blt seq w.endSeq

def FastRetransmissionWnd.isEmpty (w : FastRetransmissionWnd) : Bool :=
  decide (w.endSeq = w.start)

/-- `FastRetransmissionWnd::retransmitted` (`fast_retransmit_wnd.rs`
lines 50-54): the source asserts `contains(seq)`, which holds at the only
call site (inside the loop over `swnd.range(start, end)`). -/
def FastRetransmissionWnd.retransmitted (w : FastRetransmissionWnd) (seq : Nat) :
    FastRetransmissionWnd :=
  { w with start := Seq32.addUsize seq 1 }

/-- `FastRetransmissionWnd::try_set_boundaries`
(`fast_retransmit_wnd.rs` lines 56-65): feed the range start (the remote
NACK) to the duplicate counter; if the threshold is met, adopt the range
and re-arm the counter. -/
def FastRetransmissionWnd.trySetBoundaries (w : FastRetransmissionWnd)
    (rangeStart rangeEnd : Nat) : FastRetransmissionWnd :=
  let dt := w.duplicateThreshold.set rangeStart
  if dt.isActivated = true then
    { start := rangeStart, endSeq := rangeEnd, duplicateThreshold := dt.recount }
  else
    { w with duplicateThreshold := dt }

/-! ## Uploader building blocks (`src/layer/uploader`) -/

/-- `SendingPush` (`src/layer/uploader/sending_push.rs`); the shared
`Arc<BufPasta>` body is modelled as its byte content, and `Instant` as a
`Nat` timestamp. -/
structure SendingPush where
  body : List Nat
  lastSent : Nat
  isRetransmitted : Bool
deriving DecidableEq, Repr

def SendingPush.new (body : List Nat) (now : Nat) : SendingPush :=
  { body := body, lastSent := now, isRetransmitted := false }

/-- `SendingPush::to_retransmit`. -/
def SendingPush.toRetransmit (p : SendingPush) (now : Nat) : SendingPush :=
  { p with lastSent := now, isRetransmitted := true }

/-- `SendingPush::since_last_sent`: `now.duration_since(last_sent)`. -/
def SendingPush.sinceLastSent (p : SendingPush) (now : Nat) : Nat :=
  now - p.lastSent

/-- `BufSlicerQue` (`src/utils/buf/buf_slicer_que.rs`): a FIFO of byte
slices bounded by a slice count; empty slices are silently dropped on
push (`push_back` lines 26-37). -/
structure BufSlicerQue where
  queue : List (List Nat)
  lenCap : Nat
deriving DecidableEq, Repr

def BufSlicerQue.new (lenCap : Nat) : BufSlicerQue := { queue := [], lenCap := lenCap }

def BufSlicerQue.isEmpty (q : BufSlicerQue) : Bool := decide (q.queue = [])

def BufSlicerQue.isFull (q : BufSlicerQue) : Bool := decide (q.queue.length = q.lenCap)

/-- `BufSlicerQue::push_back`: the slice comes back on a full queue. -/
def BufSlicerQue.pushBack (q : BufSlicerQue) (slice : List Nat) :
    Except (List Nat) BufSlicerQue :=
  if q.isFull = true then .error slice
  else if slice = [] then .ok q
  else .ok { q with queue := q.queue ++ [slice] }

/-- `BufSlicerQue::slice_front` (`buf_slicer_que.rs` lines 39-54): take at
most `max_len` bytes from the head slice, splitting it if needed; `none`
is the `NothingToSlice` error on an empty queue. -/
def BufSlicerQue.sliceFront (q : BufSlicerQue) (maxLen : Nat) :
    Option (List Nat × BufSlicerQue) :=
  match q.queue with
  | [] => none
  | s :: rest =>
    if s.length ≤ maxLen then some (s, { q with queue := rest })
    else some (s.take maxLen, { q with queue := s.drop maxLen :: rest })

/-- `peek` of the `KeyedPriorityQueue<Seq32, Reverse<Instant>>`: the entry
with the minimal `last_sent`.  The crate's tie order among equal
priorities is unspecified; the model keeps the earliest-listed entry, and
no theorem below depends on the tie order. -/
def heapPeek : List (Nat × Nat) → Option (Nat × Nat)
  | [] => none
  | e :: rest =>
    match heapPeek rest with
    | none => some e
    | some e' => if e'.2 < e.2 then some e' else some e

/-- `set_priority`: update the priority of an existing key; `none` models
the `Err` that the call sites `unwrap`. -/
def heapSetPriority (seq prio : Nat) : List (Nat × Nat) → Option (List (Nat × Nat))
  | [] => none
  | (k, p) :: rest =>
    if k = seq then some ((k, prio) :: rest)
    else
      match heapSetPriority seq prio rest with
      | none => none
      | some rest' => some ((k, p) :: rest')

/-- `pop`: remove the peeked entry. -/
def heapPop (h : List (Nat × Nat)) : List (Nat × Nat) :=
  match heapPeek h with
  | none => h
  | some e => h.erase e

/-! ## Fragment bundler (`src/layer/uploader/frag_bundler.rs`) -/

/-- Total wire size of a bundle (sum of `Frag::len`). -/
def bundleWireLen (frags : List Frag) : Nat := (frags.map Frag.len).sum

/-- `FragBundler` (`frag_bundler.rs` lines 4-10). -/
structure FragBundler where
  eachBundleSpace : Nat
  bundles : List (List Frag)
  loadingBundle : List Frag
  loadingLen : Nat
deriving DecidableEq, Repr

inductive PackError where
  | fragTooLarge
deriving DecidableEq, Repr

def FragBundler.new (eachBundleSpace : Nat) : FragBundler :=
  { eachBundleSpace := eachBundleSpace, bundles := [], loadingBundle := [],
    loadingLen := 0 }

/-- `FragBundler::pack` (`frag_bundler.rs` lines 41-57): reject a fragment
larger than a whole bundle; seal the loading bundle when the fragment
does not fit; then append the fragment. -/
def FragBundler.pack (b : FragBundler) (frag : Frag) : Except PackError FragBundler :=
  if ¬ frag.len ≤ b.eachBundleSpace then .error .fragTooLarge
  else if ¬ frag.len + b.loadingLen ≤ b.eachBundleSpace then
    .ok { b with bundles := b.bundles ++ [b.loadingBundle],
                 loadingBundle := [frag], loadingLen := frag.len }
  else
    .ok { b with loadingBundle := b.loadingBundle ++ [frag],
                 loadingLen := b.loadingLen + frag.len }

/-- `FragBundler::loading_space`. -/
def FragBundler.loadingSpace (b : FragBundler) : Nat :=
  b.eachBundleSpace - b.loadingLen

/-- `FragBundler::into_bundles` (`frag_bundler.rs` lines 65-70): seal the
loading bundle iff it holds bytes. -/
def FragBundler.intoBundles (b : FragBundler) : List (List Frag) :=
  if 0 < b.loadingLen then b.bundles ++ [b.loadingBundle] else b.bundles

/-! ## Uploader (`src/layer/uploader/uploader.rs`)

Time is a `Nat` timestamp (`Instant` / `Duration` in milliseconds); the
`f64` smoothed-RTT arithmetic (`mul_f64`, α = 1/8) is abstracted to the
rational `srtt' = (7·srtt + sample) / 8` and the `ratio_rto_to_one_rtt`
factor to an explicit numerator/denominator pair — no theorem below
depends on the numeric value of `srtt` or `rto`, only on which state
fields an operation touches. -/

/-- `LocalStat` of the Uploader. -/
structure UploaderStat where
  srtt : Option Nat
  retransmissions : Nat
  rtoHits : Nat
  fastRetransmissions : Nat
  pushes : Nat
  acks : Nat
deriving DecidableEq, Repr

structure Uploader where
  toSendQueue : BufSlicerQue
  swnd : Swnd SendingPush
  toAckQueue : List Nat
  lastSentHeap : List (Nat × Nat)
  localRwndSize : Nat
  localNextSeqToReceive : Nat
  fastRetransmissionWnd : FastRetransmissionWnd
  stat : UploaderStat
  ratioRtoToOneRttNum : Nat
  ratioRtoToOneRttDen : Nat
  mtu : Nat
  disableRto : Bool
deriving DecidableEq, Repr

structure UploaderBuilder where
  localRecvBufLen : Nat
  nackDuplicateThresholdToActivateFastRetransmit : Nat
  ratioRtoToOneRttNum : Nat
  ratioRtoToOneRttDen : Nat
  mtu : Nat
  toSendQueueLenCap : Nat
  swndSizeCap : Nat
deriving DecidableEq, Repr

inductive BuildError where
  | mtuTooSmall
deriving DecidableEq, Repr

inductive SetStateError where
  | invalidState
deriving DecidableEq, Repr

/-- `OutputError` plus an explicit case for the panics (`unwrap`,
`assert!`) inside `emit_frags`, which the model surfaces instead of
diverging. -/
inductive OutputError where
  | bufferTooSmall
  | packPanic
  | heapPanic
  | bodyPanic
deriving DecidableEq, Repr

/-- `UploaderBuilder::build` (`uploader.rs` lines 68-101). -/
def UploaderBuilder.build (c : UploaderBuilder) : Except BuildError Uploader :=
  if ¬ (packetHdrLen + ackHdrLen ≤ c.mtu) ∨ ¬ (packetHdrLen + pushHdrLen + 1 ≤ c.mtu)
  then .error .mtuTooSmall
  else .ok
    { toSendQueue := BufSlicerQue.new c.toSendQueueLenCap,
      swnd := Swnd.new c.swndSizeCap,
      toAckQueue := [],
      lastSentHeap := [],
      localRwndSize := c.localRecvBufLen,
      localNextSeqToReceive := 0,
      fastRetransmissionWnd :=
        FastRetransmissionWnd.new c.nackDuplicateThresholdToActivateFastRetransmit,
      stat := { srtt := none, retransmissions := 0, rtoHits := 0,
                fastRetransmissions := 0, pushes := 0, acks := 0 },
      ratioRtoToOneRttNum := c.ratioRtoToOneRttNum,
      ratioRtoToOneRttDen := c.ratioRtoToOneRttDen,
      mtu := c.mtu,
      disableRto := false }

/-- `Uploader::write` (`uploader.rs` lines 161-167). -/
def Uploader.write (u : Uploader) (slice : List Nat) : Except (List Nat) Uploader :=
  match u.toSendQueue.pushBack slice with
  | .ok q => .ok { u with toSendQueue := q }
  | .error s => .error s

/-- `Uploader::rto` (`uploader.rs` lines 359-371):
`clamp(srtt * ratio, MIN_RTO, MAX_RTO)`, `DEFAULT_RTO` when unset
(100 ms / 60 s / 3 s). -/
def Uploader.rto (u : Uploader) : Nat :=
  match u.stat.srtt with
  | some srtt =>
    Nat.max (Nat.min (srtt * u.ratioRtoToOneRttNum / u.ratioRtoToOneRttDen) 60000) 100
  | none => 3000

/-- `Uploader::set_remote_rwnd_size`. -/
def Uploader.setRemoteRwndSize (u : Uploader) (wnd : Nat) : Uploader :=
  { u with swnd := u.swnd.setRemoteRwndSize wnd }

/-- `Uploader::set_acked_local_seq` (`uploader.rs` lines 396-414): remove
the acked sequence from the send window; when the removed push was never
retransmitted, fold its round trip into the smoothed RTT. -/
def Uploader.setAckedLocalSeq (u : Uploader) (ackedLocalSeq : Nat) (now : Nat) :
    Uploader :=
  match u.swnd.remove ackedLocalSeq with
  | (some frag, swnd') =>
    if frag.isRetransmitted = false then
      let fragRtt := frag.sinceLastSent now
      let srtt' :=
        match u.stat.srtt with
        | some srtt => some ((srtt * 7 + fragRtt) / 8)
        | none => some fragRtt
      { u with swnd := swnd', stat := { u.stat with srtt := srtt' } }
    else { u with swnd := swnd' }
  | (none, swnd') => { u with swnd := swnd' }

/-- The `for acked_local_seq in delta.acked_local_seqs` loop of
`set_state` (`uploader.rs` lines 440-446), tracking the running
`Seq32::max` of the acked sequences. -/
def Uploader.applyAcked (now : Nat) :
    Uploader → List Nat → Option Nat → Uploader × Option Nat
  | u, [], m => (u, m)
  | u, a :: rest, m =>
    Uploader.applyAcked now (u.setAckedLocalSeq a now) rest
      (some (match m with
             | some x => Seq32.max x a
             | none => a))

/-- `Uploader::set_state` (`uploader.rs` lines 429-461).  The validation
loop runs before any mutation; on `InvalidState` the uploader is returned
untouched.  Statement order mirrors the source: window sizes, acked
sequences (with RTT sampling), cumulative removal below the NACK, the
fast-retransmission window offer, then the to-ack queue. -/
def Uploader.setState (u : Uploader) (delta : SetUploadState) (now : Nat) :
    Except SetStateError Unit × Uploader :=
  if delta.ackedLocalSeqs.any (fun a => a = delta.remoteNack) then
    (.error .invalidState, u)
  else
    let u1 := u.setRemoteRwndSize delta.remoteRwndSize
    let u2 := { u1 with localNextSeqToReceive := delta.localNextSeqToReceive }
    let u3 := { u2 with localRwndSize := delta.localRwndSize }
    match Uploader.applyAcked now u3 delta.ackedLocalSeqs none with
    | (u4, maxAckedLocalSeq) =>
      let u5 := { u4 with swnd := u4.swnd.removeBefore delta.remoteNack }
      let u6 :=
        match maxAckedLocalSeq with
        | some x =>
          if Seq32.blt delta.remoteNack x = true then
            { u5 with fastRetransmissionWnd :=
                u5.fastRetransmissionWnd.trySetBoundaries delta.remoteNack x }
          else u5
        | none => u5
      let u7 := { u6 with toAckQueue := u6.toAckQueue ++ delta.remoteSeqsToAck }
      (.ok (), u7)

/-- The piggyback-ACK loop of `emit_frags` (`uploader.rs` lines 227-241):
drain the to-ack queue, packing an Ack fragment for each. -/
def Uploader.emitAcks :
    List Nat → UploaderStat → FragBundler →
      Except OutputError (UploaderStat × FragBundler)
  | [], st, b => .ok (st, b)
  | ack :: rest, st, b =>
    match b.pack { seq := ack, cmd := .ack } with
    | .error _ => .error .packPanic
    | .ok b' => Uploader.emitAcks rest { st with acks := st.acks + 1 } b'

/-- The fast-retransmission loop of `emit_frags` (`uploader.rs` lines
245-271), iterating over the send-window entries inside the
fast-retransmission window: repack the shared body, mark the push
retransmitted, refresh its heap priority, and advance the window.  The
iteration list is the range snapshot; the loop body never changes keys,
so iterating the snapshot matches iterating the live map. -/
def Uploader.fastLoop :
    List (Nat × SendingPush) → Nat → Uploader → FragBundler →
      Except OutputError (Uploader × FragBundler)
  | [], _, u, b => .ok (u, b)
  | (seq, push) :: rest, now, u, b =>
    match b.pack { seq := seq, cmd := .push push.body } with
    | .error _ => .error .packPanic
    | .ok b' =>
      let push' := push.toRetransmit now
      match heapSetPriority seq push'.lastSent u.lastSentHeap with
      | none => .error .heapPanic
      | some heap' =>
        Uploader.fastLoop rest now
          { u with
            swnd := { u.swnd with wnd := alInsert seq push' u.swnd.wnd },
            lastSentHeap := heap',
            fastRetransmissionWnd := u.fastRetransmissionWnd.retransmitted seq,
            stat := { u.stat with
              fastRetransmissions := u.stat.fastRetransmissions + 1,
              retransmissions := u.stat.retransmissions + 1,
              pushes := u.stat.pushes + 1 } } b'

/-- The RTO loop of `emit_frags` (`uploader.rs` lines 273-309): up to
`heap.len()` rounds; stop when the oldest entry is younger than the RTO;
repack stale-free entries, pop entries no longer in the send window. -/
def Uploader.rtoLoop :
    Nat → Nat → Nat → Uploader → FragBundler →
      Except OutputError (Uploader × FragBundler)
  | 0, _, _, u, b => .ok (u, b)
  | n + 1, now, rto, u, b =>
    match heapPeek u.lastSentHeap with
    | none => .ok (u, b)
    | some (seq, lastSent) =>
      if now - lastSent < rto then .ok (u, b)
      else
        match u.swnd.value seq with
        | some push =>
          match b.pack { seq := seq, cmd := .push push.body } with
          | .error _ => .error .packPanic
          | .ok b' =>
            let push' := push.toRetransmit now
            match heapSetPriority seq push'.lastSent u.lastSentHeap with
            | none => .error .heapPanic
            | some heap' =>
              Uploader.rtoLoop n now rto
                { u with
                  swnd := { u.swnd with wnd := alInsert seq push' u.swnd.wnd },
                  lastSentHeap := heap',
                  stat := { u.stat with
                    rtoHits := u.stat.rtoHits + 1,
                    retransmissions := u.stat.retransmissions + 1,
                    pushes := u.stat.pushes + 1 } } b'
        | none =>
          Uploader.rtoLoop n now rto
            { u with lastSentHeap := heapPop u.lastSentHeap } b

/-- The body-building inner loop of the new-send step (`uploader.rs`
lines 319-327): drain the to-send queue into a fresh body until the
fragment body budget is filled or the queue is empty.  Each iteration
either consumes a whole queued slice or fills the remaining budget, so
`limit + |queue|` bounds the rounds. -/
def Uploader.buildBody :
    Nat → Nat → List Nat → BufSlicerQue → List Nat × BufSlicerQue
  | 0, _, body, q => (body, q)
  | fuel + 1, limit, body, q =>
    if q.isEmpty = true then (body, q)
    else
      let freeSpace := limit - body.length
      if freeSpace = 0 then (body, q)
      else
        match q.sliceFront freeSpace with
        | none => (body, q)
        | some (buf, q') => Uploader.buildBody fuel limit (body ++ buf) q'

/-- Total bytes queued in the to-send queue; bounds the rounds of the
new-send loop (every allocated push carries at least one byte). -/
def queueBytes (q : BufSlicerQue) : Nat := (q.queue.map List.length).sum

/-- The new-send loop of `emit_frags` (`uploader.rs` lines 311-353):
while the to-send queue is non-empty and the send window is not full,
carve a body (budget: the loading bundle's remaining space when it fits a
push header plus one byte, else a fresh bundle's), allocate `seq =
swnd.end`, pack the push, register it in the heap and the send window.
The source's `assert!(frag_body_limit != 0)` and `assert!(body.len() >
0)` are surfaced as `bodyPanic`. -/
def Uploader.newSendLoop :
    Nat → Nat → Nat → Uploader → FragBundler →
      Except OutputError (Uploader × FragBundler)
  | 0, _, _, u, b => .ok (u, b)
  | n + 1, now, space, u, b =>
    if ¬ u.toSendQueue.isEmpty = true ∧ ¬ u.swnd.isFull = true then
      let fragBodyLimit :=
        if pushHdrLen + 1 ≤ b.loadingSpace then b.loadingSpace - pushHdrLen
        else space - pushHdrLen
      if fragBodyLimit = 0 then .error .bodyPanic
      else
        match Uploader.buildBody (fragBodyLimit + u.toSendQueue.queue.length)
            fragBodyLimit [] u.toSendQueue with
        | (body, q') =>
          if body = [] then .error .bodyPanic
          else
            let push := SendingPush.new body now
            let seq := u.swnd.endSeq
            match b.pack { seq := seq, cmd := .push body } with
            | .error _ => .error .packPanic
            | .ok b' =>
              Uploader.newSendLoop n now space
                { u with
                  toSendQueue := q',
                  lastSentHeap := u.lastSentHeap ++ [(seq, push.lastSent)],
                  swnd := u.swnd.pushBack push,
                  stat := { u.stat with pushes := u.stat.pushes + 1 } } b'
    else .ok (u, b)

/-- `Uploader::emit_frags` (`uploader.rs` lines 222-357): ACKs first,
then fast retransmissions, then RTO retransmissions, then new sends;
return the sealed bundles. -/
def Uploader.emitFrags (u : Uploader) (space : Nat) (now : Nat) :
    Except OutputError (List (List Frag) × Uploader) :=
  let bundler := FragBundler.new space
  match Uploader.emitAcks u.toAckQueue u.stat bundler with
  | .error e => .error e
  | .ok (st1, b1) =>
    let u1 := { u with toAckQueue := [], stat := st1 }
    let step2 :=
      if u1.fastRetransmissionWnd.isEmpty = false then
        Uploader.fastLoop
          (u1.swnd.range u1.fastRetransmissionWnd.start
            u1.fastRetransmissionWnd.endSeq) now u1 b1
      else .ok (u1, b1)
    match step2 with
    | .error e => .error e
    | .ok (u2, b2) =>
      let step3 :=
        if u2.disableRto = false then
          Uploader.rtoLoop u2.lastSentHeap.length now u2.rto u2 b2
        else .ok (u2, b2)
      match step3 with
      | .error e => .error e
      | .ok (u3, b3) =>
        match Uploader.newSendLoop (queueBytes u3.toSendQueue + 1) now space u3 b3 with
        | .error e => .error e
        | .ok (u4, b4) => .ok (b4.intoBundles, u4)

/-- `Uploader::emit_packets` (`uploader.rs` lines 190-220): reject a
buffer unable to hold a header plus the smallest fragment, emit the
bundles with budget `packet_space - packet_header`, and prepend a header
`{rwnd = local_rwnd_size, nack = local_next_seq_to_receive}` to each. -/
def Uploader.emitPackets (u : Uploader) (packetSpace : Nat) (now : Nat) :
    Except OutputError (List Packet × Uploader) :=
  if ¬ (packetHdrLen + ackHdrLen ≤ packetSpace) then .error .bufferTooSmall
  else if ¬ (packetHdrLen + pushHdrLen + 1 ≤ packetSpace) then .error .bufferTooSmall
  else
    match u.emitFrags (packetSpace - packetHdrLen) now with
    | .error e => .error e
    | .ok (bundles, u') =>
      .ok (bundles.map (fun frags =>
        { hdr := { rwnd := u'.localRwndSize, nack := u'.localNextSeqToReceive },
          frags := frags }), u')

/-- `Uploader::emit` (`uploader.rs` lines 170-188):
`emit_packets(self.mtu, now)`.  The send-available observer callback is a
side effect on an external object and is not part of the state model. -/
def Uploader.emit (u : Uploader) (now : Nat) :
    Except OutputError (List Packet × Uploader) :=
  u.emitPackets u.mtu now

/-- Extract the success value of an `Except`, with an explicit fallback;
used only to build concrete states for witnesses and counterexamples. -/
def okOr {ε β : Type} (dflt : β) : Except ε β → β
  | .ok x => x
  | .error _ => dflt

/-- A degenerate Uploader used only as the `okOr` fallback. -/
def uploaderZero : Uploader :=
  { toSendQueue := BufSlicerQue.new 0, swnd := Swnd.new 0, toAckQueue := [],
    lastSentHeap := [], localRwndSize := 0, localNextSeqToReceive := 0,
    fastRetransmissionWnd := FastRetransmissionWnd.new 0,
    stat := { srtt := none, retransmissions := 0, rtoHits := 0,
              fastRetransmissions := 0, pushes := 0, acks := 0 },
    ratioRtoToOneRttNum := 0, ratioRtoToOneRttDen := 1, mtu := 0,
    disableRto := false }

/-- The configuration of `UploaderBuilder::default()` (`uploader.rs`
lines 103-114), with `ratio_rto_to_one_rtt = 1.5` as `3/2`. -/
def defaultUploaderCfg : UploaderBuilder :=
  { localRecvBufLen := 65535,
    nackDuplicateThresholdToActivateFastRetransmit := 0,
    ratioRtoToOneRttNum := 3, ratioRtoToOneRttDen := 2,
    mtu := 1300, toSendQueueLenCap := 65536, swndSizeCap := 65535 }

def defaultUploader : Uploader :=
  okOr uploaderZero (UploaderBuilder.build defaultUploaderCfg)

/-! ## Bundle size bounds (claim C10)

`FragBundler::check_rep` asserts that every sealed bundle fits
`each_bundle_space` and that `loading_len` is the loading bundle's wire
size; the invariant below mirrors it and is preserved by `pack`. -/

/-- The bundler invariant asserted by `FragBundler::check_rep`. -/
def FragBundler.inv (b : FragBundler) : Prop :=
  (∀ bundle ∈ b.bundles, bundle ≠ [] ∧ bundleWireLen bundle ≤ b.eachBundleSpace) ∧
    bundleWireLen b.loadingBundle = b.loadingLen ∧
    b.loadingLen ≤ b.eachBundleSpace

/-! ## Fast-retransmit activation count (claim C1)

Each `set_state` delta that passes validation and acks an out-of-order
sequence `x` above the NACK `N` performs exactly one
`try_set_boundaries(N..x)` call (see `Uploader.setState`); iterating that
call captures "consecutive deltas with the same NACK". -/

def iterTrySetBoundaries (w : FastRetransmissionWnd) (a b : Nat) :
    Nat → FastRetransmissionWnd
  | 0 => w
  | k + 1 => (iterTrySetBoundaries w a b k).trySetBoundaries a b

/-- The concrete run refuting claim C1, mirroring the repo's own
`test_fast_retransmit1`: threshold 1, two pushes emitted (sequences 0 and
1), then a single delta `remote_nack = 0, acked_local_seqs = [1]`. -/
def c1Cfg : UploaderBuilder :=
  { localRecvBufLen := 0,
    nackDuplicateThresholdToActivateFastRetransmit := 1,
    ratioRtoToOneRttNum := 3, ratioRtoToOneRttDen := 2,
    mtu := 512, toSendQueueLenCap := 100, swndSizeCap := 1000 }

def c1U0 : Uploader := okOr uploaderZero (UploaderBuilder.build c1Cfg)

def c1U1 : Uploader := { c1U0 with disableRto := true }

def c1U2 : Uploader := c1U1.setRemoteRwndSize 2

def c1U3 : Uploader := okOr uploaderZero (c1U2.write [0, 1, 2])

def c1E1 : List Packet × Uploader := okOr ([], uploaderZero) (c1U3.emit 0)

def c1U5 : Uploader := okOr uploaderZero (c1E1.2.write [3])

def c1E2 : List Packet × Uploader := okOr ([], uploaderZero) (c1U5.emit 0)

def c1Delta : SetUploadState :=
  { remoteRwndSize := 99, remoteNack := 0, localNextSeqToReceive := 0,
    remoteSeqsToAck := [], ackedLocalSeqs := [1], localRwndSize := 1 }

def c1U7 : Uploader := (c1E2.2.setState c1Delta 0).2

def c1E3 : List Packet × Uploader := okOr ([], uploaderZero) (c1U7.emit 0)

/-! ## Cumulative-ACK dominance (claim C5) -/

/-! ## Theorems -/

theorem sdist_eq_zero_iff {a b : Nat} (ha : a < w32) (hb : b < w32) :
    sdist a b = 0 ↔ a = b := by
  unfold sdist w32 at *
  omega

theorem sdist_lt_w32 (a b : Nat) (ha : a < w32) : sdist a b < w32 := by
  unfold sdist w32 at *
  omega

/-- Characterisation of the wrap-around strict order in terms of the
forward offset `sdist a b = (b - a) mod 2^32`. -/
theorem seq32_cmp_eq_lt_iff {a b : Nat} (ha : a < w32) (hb : b < w32) :
    Seq32.cmp a b = .lt ↔
      (0 < sdist a b ∧ sdist a b < 2147483648) ∨ (sdist a b = 2147483648 ∧ b < a) := by
  rcases Nat.lt_trichotomy a b with h | h | h
  · unfold Seq32.cmp
    rw [if_pos h]
    by_cases hd : b - a ≤ halfMax
    · rw [if_pos hd]
      simp only [true_iff]
      unfold sdist halfMax w32 at *
      omega
    · rw [if_neg hd]
      simp only [reduceCtorEq, false_iff]
      unfold sdist halfMax w32 at *
      omega
  · subst h
    unfold Seq32.cmp
    rw [if_neg (lt_irrefl a), if_pos rfl]
    simp only [reduceCtorEq, false_iff]
    unfold sdist w32 at *
    omega
  · unfold Seq32.cmp
    rw [if_neg (by omega), if_neg (by omega)]
    by_cases hd : a - b ≤ halfMax
    · rw [if_pos hd]
      simp only [reduceCtorEq, false_iff]
      unfold sdist halfMax w32 at *
      omega
    · rw [if_neg hd]
      simp only [true_iff]
      unfold sdist halfMax w32 at *
      omega

theorem seq32_cmp_eq_eq_iff {a b : Nat} (ha : a < w32) (hb : b < w32) :
    Seq32.cmp a b = .eq ↔ a = b := by
  rcases Nat.lt_trichotomy a b with h | h | h
  · unfold Seq32.cmp
    rw [if_pos h]
    by_cases hd : b - a ≤ halfMax
    · rw [if_pos hd]
      simp only [reduceCtorEq, false_iff]
      omega
    · rw [if_neg hd]
      simp only [reduceCtorEq, false_iff]
      omega
  · subst h
    unfold Seq32.cmp
    rw [if_neg (lt_irrefl a), if_pos rfl]
    simp
  · unfold Seq32.cmp
    rw [if_neg (by omega), if_neg (by omega)]
    by_cases hd : a - b ≤ halfMax
    · rw [if_pos hd]
      simp only [reduceCtorEq, false_iff]
      omega
    · rw [if_neg hd]
      simp only [reduceCtorEq, false_iff]
      omega

/-- `cmp a b = .gt` exactly when `cmp b a = .lt`: the order is antisymmetric
even at the `2^31` boundary. -/
theorem seq32_cmp_eq_gt_iff_swap {a b : Nat} :
    Seq32.cmp a b = .gt ↔ Seq32.cmp b a = .lt := by
  rcases Nat.lt_trichotomy a b with h | h | h
  · unfold Seq32.cmp
    rw [if_pos h, if_neg (by omega : ¬ b < a), if_neg (by omega : ¬ b = a)]
    by_cases hd : b - a ≤ halfMax
    · rw [if_pos hd, if_pos hd]
      simp
    · rw [if_neg hd, if_neg hd]
      simp
  · subst h
    unfold Seq32.cmp
    rw [if_neg (lt_irrefl a), if_pos rfl]
    simp
  · unfold Seq32.cmp
    rw [if_neg (by omega : ¬ a < b), if_neg (by omega : ¬ a = b), if_pos h]
    by_cases hd : a - b ≤ halfMax
    · rw [if_pos hd, if_pos hd]
      simp
    · rw [if_neg hd, if_neg hd]
      simp

theorem seq32_blt_eq_true_iff {a b : Nat} :
    Seq32.blt a b = true ↔ Seq32.cmp a b = .lt := by
  unfold Seq32.blt
  rcases h : Seq32.cmp a b <;> simp [h]

theorem seq32_ble_eq_true_iff {a b : Nat} :
    Seq32.ble a b = true ↔ ¬ Seq32.cmp a b = .gt := by
  unfold Seq32.ble
  rcases h : Seq32.cmp a b <;> simp [h]

theorem seq32_blt_iff {a b : Nat} (ha : a < w32) (hb : b < w32) :
    Seq32.blt a b = true ↔
      (0 < sdist a b ∧ sdist a b < 2147483648) ∨ (sdist a b = 2147483648 ∧ b < a) := by
  rw [seq32_blt_eq_true_iff]
  exact seq32_cmp_eq_lt_iff ha hb

theorem seq32_ble_iff {a b : Nat} (ha : a < w32) (hb : b < w32) :
    Seq32.ble a b = true ↔
      ¬ ((0 < sdist b a ∧ sdist b a < 2147483648) ∨ (sdist b a = 2147483648 ∧ a < b)) := by
  rw [seq32_ble_eq_true_iff]
  constructor
  · intro h hc
    exact h (seq32_cmp_eq_gt_iff_swap.2 ((seq32_cmp_eq_lt_iff hb ha).2 hc))
  · intro h hgt
    exact h ((seq32_cmp_eq_lt_iff hb ha).1 (seq32_cmp_eq_gt_iff_swap.1 hgt))

/-- In a half-window anchored at `base` (both offsets below `2^31`), the
wrap-around strict order agrees with the natural order of the offsets. -/
theorem seq32_blt_iff_offsets {base a b : Nat} (hbase : base < w32)
    (ha : a < w32) (hb : b < w32)
    (hda : sdist base a < 2147483648) (hdb : sdist base b < 2147483648) :
    (Seq32.blt a b = true ↔ sdist base a < sdist base b) := by
  rw [seq32_blt_iff ha hb]
  unfold sdist w32 at *
  omega

theorem seq32_ble_iff_offsets {base a b : Nat} (hbase : base < w32)
    (ha : a < w32) (hb : b < w32)
    (hda : sdist base a < 2147483648) (hdb : sdist base b < 2147483648) :
    (Seq32.ble a b = true ↔ sdist base a ≤ sdist base b) := by
  rw [seq32_ble_iff ha hb]
  unfold sdist w32 at *
  omega

/-- Claim C3 counterexample: at `a = 0`, `b = 2^31` the forward offset
`(b - a) mod 2^32` equals `2^31`, which lies inside the claimed interval
`(0, 2^31]`, yet `Seq32::cmp` returns `Greater` (because
`2^31 > u32::MAX / 2`), so `a < b` is false. -/
theorem seq32_lt_c3_counterexample :
    ¬ (Seq32.blt 0 2147483648 = true ↔
        (0 < sdist 0 2147483648 ∧ sdist 0 2147483648 ≤ 2147483648)) := by
  decide

/-- Claim C3 (amended): for `a, b < 2^32`, `a < b` under the wrap-around
order iff the forward offset `(b - a) mod 2^32` lies in the open interval
`(0, 2^31)`, or the two values are exactly `2^31` apart and `a`'s raw
value is numerically the larger one (at the equidistant boundary the
numerically larger value compares as the smaller one). -/
theorem seq32_lt_spec (a b : Nat) (ha : a < w32) (hb : b < w32) :
    Seq32.blt a b = true ↔
      (0 < sdist a b ∧ sdist a b < 2147483648) ∨ (sdist a b = 2147483648 ∧ b < a) :=
  seq32_blt_iff ha hb

/-- Witness for `seq32_lt_spec` at `a = 3`, `b = 5`. -/
theorem seq32_lt_spec_witness :
    Seq32.blt 3 5 = true ↔
      (0 < sdist 3 5 ∧ sdist 3 5 < 2147483648) ∨ (sdist 3 5 = 2147483648 ∧ 5 < 3) :=
  seq32_lt_spec 3 5 (by decide) (by decide)

theorem readU16_u16Bytes (n : Nat) (rest : List Nat) (hn : n < 65536) :
    readU16 (u16Bytes n ++ rest) = some (n, rest) := by
  unfold u16Bytes readU16
  simp only [List.cons_append, List.nil_append]
  congr 1
  congr 1
  omega

theorem readU32_u32Bytes (n : Nat) (rest : List Nat) (hn : n < w32) :
    readU32 (u32Bytes n ++ rest) = some (n, rest) := by
  unfold u32Bytes readU32 w32 at *
  simp only [List.cons_append, List.nil_append]
  congr 1
  congr 1
  omega

theorem frag_appendTo_length (f : Frag) : f.appendTo.length = f.len := by
  unfold Frag.appendTo Frag.len pushHdrLen ackHdrLen u32Bytes
  rcases f with ⟨seq, cmd⟩
  cases cmd with
  | push body =>
    simp
    omega
  | ack => simp

theorem frag_len_ge_five (f : Frag) : 5 ≤ f.len := by
  unfold Frag.len pushHdrLen ackHdrLen
  rcases f with ⟨seq, cmd⟩
  cases cmd with
  | push body =>
    simp
    omega
  | ack => simp

/-- Decoding an encoded fragment succeeds, returns the fragment, and
consumes exactly its bytes. -/
theorem frag_fromSlice_appendTo (f : Frag) (rest : List Nat) (hf : f.wf) :
    Frag.fromSlice (f.appendTo ++ rest) = .ok (f, rest) := by
  rcases f with ⟨seq, cmd⟩
  obtain ⟨hseq, hcmd⟩ := hf
  cases cmd with
  | push body =>
    obtain ⟨hpos, hlt⟩ := hcmd
    unfold Frag.appendTo Frag.fromSlice
    simp only [List.append_assoc]
    rw [readU32_u32Bytes seq _ hseq]
    simp only [List.singleton_append, List.cons_append, List.nil_append, readU8,
      reduceIte]
    rw [readU32_u32Bytes body.length _ hlt]
    simp only []
    rw [if_neg (by omega : ¬ body.length = 0)]
    rw [if_pos (show body.length ≤ (body ++ rest).length by simp)]
    rw [List.take_left, List.drop_left]
  | ack =>
    unfold Frag.appendTo Frag.fromSlice
    simp only [List.append_assoc]
    rw [readU32_u32Bytes seq _ hseq]
    simp only [List.singleton_append, List.cons_append, List.nil_append, readU8,
      reduceIte]
    rfl

/-- If the first fragment of the buffer is malformed, the fragment loop
fails regardless of the available fuel. -/
theorem decodeFrags_error_of_head_error {b : Nat} {bs : List Nat} {e : DecodingError}
    (fuel : Nat) (h : Frag.fromSlice (b :: bs) = .error e) :
    ∃ e', decodeFrags fuel (b :: bs) = .error e' := by
  cases fuel with
  | zero => exact ⟨.decoding "fuel", rfl⟩
  | succ k =>
    refine ⟨e, ?_⟩
    unfold decodeFrags
    rw [h]

/-- If the fragment loop fails on the bytes that follow a well-decoded
header, the whole packet decode fails. -/
theorem packet_fromSlice_err_of_frags {bytes r : List Nat} {hdr : PacketHeader}
    (hhdr : PacketHeader.fromSlice bytes = .ok (hdr, r))
    (hfr : ∀ fuel, ∃ e', decodeFrags fuel r = .error e') (p : Packet) :
    Packet.fromSlice bytes ≠ .ok p := by
  intro hok
  unfold Packet.fromSlice at hok
  rw [hhdr] at hok
  simp only [] at hok
  obtain ⟨e', he'⟩ := hfr r.length
  rw [he'] at hok
  exact Except.noConfusion hok

theorem decodeFrags_encodeFrags (fs : List Frag) (hfs : ∀ f ∈ fs, f.wf) :
    ∀ fuel, (encodeFrags fs).length ≤ fuel →
      decodeFrags fuel (encodeFrags fs) = .ok fs := by
  induction fs with
  | nil =>
    intro fuel _
    show decodeFrags fuel [] = .ok []
    cases fuel with
    | zero => rfl
    | succ k => rfl
  | cons f fs ih =>
    intro fuel hfuel
    have hwf : f.wf := hfs f (by simp)
    have hlen : 5 ≤ f.appendTo.length := by
      rw [frag_appendTo_length]
      exact frag_len_ge_five f
    have henc : (encodeFrags (f :: fs)).length =
        f.appendTo.length + (encodeFrags fs).length := by
      show (f.appendTo ++ encodeFrags fs).length = _
      simp
    obtain ⟨b, bs, hcons⟩ : ∃ b bs, encodeFrags (f :: fs) = b :: bs := by
      unfold encodeFrags
      rcases ha : f.appendTo with _ | ⟨b, bs⟩
      · rw [ha] at hlen
        simp at hlen
      · exact ⟨b, bs ++ encodeFrags fs, by simp⟩
    cases fuel with
    | zero => omega
    | succ k =>
      rw [hcons]
      unfold decodeFrags
      have hfrom : Frag.fromSlice (b :: bs) = .ok (f, encodeFrags fs) := by
        rw [← hcons]
        show Frag.fromSlice (f.appendTo ++ encodeFrags fs) = .ok (f, encodeFrags fs)
        exact frag_fromSlice_appendTo f _ hwf
      rw [hfrom]
      show (match decodeFrags k (encodeFrags fs) with
        | Except.error e => Except.error e
        | Except.ok gs => Except.ok (f :: gs)) = Except.ok (f :: fs)
      rw [ih (fun g hg => hfs g (by simp [hg])) k (by omega)]

/-- Claim C6 counterexample: `cexC6` is built from a valid header and
fragments that are valid in the claim's sense (the Push body is
non-empty), yet decoding its encoding does not return the packet — the
truncated length field reads back as zero and decoding rejects the
buffer. -/
theorem packet_roundtrip_c6_counterexample :
    Frag.claimValid { seq := 0, cmd := .push (List.replicate w32 0) } ∧
      Packet.fromSlice (Packet.appendTo cexC6) ≠ .ok cexC6 := by
  constructor
  · intro h
    have := congrArg List.length h
    rw [List.length_replicate] at this
    exact absurd this (by decide)
  · have hbytes : Packet.appendTo cexC6 =
        0 :: 0 :: 0 :: 0 :: 0 :: 0 :: 0 :: 0 :: 0 :: 0 :: 0 :: 0 :: 0 :: 0 :: 0 ::
          List.replicate w32 0 := by
      unfold cexC6 Packet.appendTo PacketHeader.appendTo encodeFrags Frag.appendTo
      simp only []
      rw [List.length_replicate, show u16Bytes 0 = [0, 0] from rfl,
        show u32Bytes 0 = [0, 0, 0, 0] from rfl,
        show u32Bytes w32 = [0, 0, 0, 0] from rfl]
      rw [show encodeFrags [] = [] from rfl, List.append_nil]
      simp only [List.cons_append, List.nil_append, List.append_assoc]
    rw [hbytes]
    have hhdr : PacketHeader.fromSlice (0 :: 0 :: 0 :: 0 :: 0 :: 0 :: 0 :: 0 :: 0 ::
        0 :: 0 :: 0 :: 0 :: 0 :: 0 :: List.replicate w32 0) =
        .ok ({ rwnd := 0, nack := 0 },
          0 :: 0 :: 0 :: 0 :: 0 :: 0 :: 0 :: 0 :: 0 :: List.replicate w32 0) := rfl
    have hfrom : Frag.fromSlice (0 :: 0 :: 0 :: 0 :: 0 :: 0 :: 0 :: 0 :: 0 ::
        List.replicate w32 0) = .error (.decoding "len") := by
      unfold Frag.fromSlice readU32 readU8
      simp only [reduceIte]
    exact packet_fromSlice_err_of_frags hhdr
      (fun fuel => decodeFrags_error_of_head_error fuel hfrom) cexC6

/-- Claim C6 (amended): adding to the claim's validity condition that each
Push body also fits the 4-byte length field (fewer than `2^32` bytes),
`decode (encode P) = P` for every packet `P` whose header fields fit their
wire types; the decoder consumes the encoded buffer exactly (its fragment
loop runs until the buffer is empty). -/
theorem packet_roundtrip_spec (p : Packet)
    (hrwnd : p.hdr.rwnd < 65536) (hnack : p.hdr.nack < w32)
    (hfrags : ∀ f ∈ p.frags, f.wf) :
    Packet.fromSlice (Packet.appendTo p) = .ok p := by
  rcases p with ⟨⟨rwnd, nack⟩, frags⟩
  unfold Packet.appendTo Packet.fromSlice PacketHeader.appendTo PacketHeader.fromSlice
  simp only [List.append_assoc]
  rw [readU16_u16Bytes rwnd _ hrwnd]
  simp only []
  rw [readU32_u32Bytes nack _ hnack]
  simp only []
  rw [decodeFrags_encodeFrags frags hfrags _ (le_refl _)]

/-- Witness for `packet_roundtrip_spec` on a small concrete packet with
one Ack and one Push fragment. -/
theorem packet_roundtrip_spec_witness :
    Packet.fromSlice (Packet.appendTo
        { hdr := { rwnd := 2, nack := 3 },
          frags := [{ seq := 7, cmd := .ack },
                    { seq := 8, cmd := .push [9, 10] }] }) =
      .ok { hdr := { rwnd := 2, nack := 3 },
            frags := [{ seq := 7, cmd := .ack },
                      { seq := 8, cmd := .push [9, 10] }] } :=
  packet_roundtrip_spec _ (by decide) (by decide)
    (by
      intro f hf
      simp only [List.mem_cons, List.mem_singleton] at hf
      rcases hf with h | h | h
      · subst h
        exact ⟨by decide, trivial⟩
      · subst h
        exact ⟨by decide, by decide, by decide⟩
      · cases h)

/-- Claim C2 counterexample: on `c2Bytes` the packet-input operation does
*not* return the `Decoding` error; it returns a successful
`SetUploadState` built from the fragment that preceded the malformed one
(`acked_local_seqs = [1]`), while only the `decoding_errors` statistic
records the failure. -/
theorem downloader_input_c2_counterexample :
    (Downloader.inputPacket (DownloaderBuilder.build 3) c2Bytes).1 =
        .ok { remoteRwndSize := 2, remoteNack := 0, localNextSeqToReceive := 0,
              remoteSeqsToAck := [], ackedLocalSeqs := [1], localRwndSize := 3 } ∧
      (Downloader.inputPacket (DownloaderBuilder.build 3) c2Bytes).2.stat.decodingErrors
        = 1 := by
  constructor
  · rfl
  · rfl

/-- Claim C2 (amended): a malformed fragment (unknown command byte, a
Push with `len == 0`, or a truncated fragment header or body) stops the
fragment loop and increments `decoding_errors`, but the packet input
still returns a successful `SetUploadState` built from the fragments
that preceded the malformed one.  The `Decoding` error is returned
exactly when the 6-byte packet header itself cannot be read, i.e. the
input is shorter than 6 bytes. -/
theorem downloader_input_ok_iff (d : Downloader) (bytes : List Nat) :
    exceptIsOk (d.inputPacket bytes).1 = true ↔ 6 ≤ bytes.length := by
  unfold Downloader.inputPacket PacketHeader.fromSlice readU16 readU32
  rcases bytes with _ | ⟨b0, bytes⟩
  · simp [exceptIsOk]
  rcases bytes with _ | ⟨b1, bytes⟩
  · simp [exceptIsOk]
  rcases bytes with _ | ⟨b2, bytes⟩
  · simp [exceptIsOk]
  rcases bytes with _ | ⟨b3, bytes⟩
  · simp [exceptIsOk]
  rcases bytes with _ | ⟨b4, bytes⟩
  · simp [exceptIsOk]
  rcases bytes with _ | ⟨b5, bytes⟩
  · simp [exceptIsOk]
  simp only []
  rcases h : Downloader.handleFrags bytes.length d bytes [] [] with ⟨d1, changes⟩
  simp [exceptIsOk]

/-- Claim C4 counterexample: after inputting `c4Bytes` into a fresh
Downloader with capacity `C_r = 3`, the window map holds one out-of-order
slice, yet the returned `local_rwnd_size` is 3, not `C_r - |map| = 2`:
`RecvBuf::rwnd_size` does not decrease when an out-of-order slice is
stored. -/
theorem downloader_rwnd_c4_counterexample :
    (Downloader.inputPacket (DownloaderBuilder.build 3) c4Bytes).1 =
        .ok { remoteRwndSize := 2, remoteNack := 0, localNextSeqToReceive := 0,
              remoteSeqsToAck := [1], ackedLocalSeqs := [], localRwndSize := 3 } ∧
      (Downloader.inputPacket (DownloaderBuilder.build 3) c4Bytes).2.recvBuf.rwnd.wnd.length
        = 1 ∧
      ¬ (3 : Nat) = 3 - 1 := by
  refine ⟨by rfl, by rfl, by decide⟩

/-- Claim C7: for every Push fragment handled by the Downloader's
fragment loop, the fragment's sequence is appended to the delta's
`remote_seqs_to_ack` exactly when the receive-buffer insert locates it as
`InRecvWindow`, `AtRecvWindowStart`, or `TooLate`; a `TooEarly` fragment
is not acknowledged and leaves the receive buffer unchanged.  The
location reported by `RecvBuf::insert` is `Rwnd::location` of the
sequence. -/
theorem downloader_push_ack_spec (d : Downloader) (seq : Nat) (body : List Nat)
    (acks : List Nat) :
    (d.recvBuf.insert seq body).1 = d.recvBuf.rwnd.location seq ∧
      ((d.handlePush seq body acks).2 =
        if (d.recvBuf.insert seq body).1 = .tooEarly then acks else acks ++ [seq]) ∧
      ((d.recvBuf.insert seq body).1 = .tooEarly →
        (d.handlePush seq body acks).1.recvBuf = d.recvBuf) := by
  have hfst : (d.recvBuf.insert seq body).1 = d.recvBuf.rwnd.location seq := by
    unfold RecvBuf.insert
    rcases hl : d.recvBuf.rwnd.location seq
    · rfl
    · rcases hp : d.recvBuf.rwnd.insertThenPopNext seq body with ⟨v', r1⟩
      rcases v' with _ | v'
      · simp [hp]
      · simp [hp]
    · rfl
    · rfl
  have hearly : (d.recvBuf.insert seq body).1 = .tooEarly →
      (d.recvBuf.insert seq body).2 = d.recvBuf := by
    intro he
    rw [hfst] at he
    unfold RecvBuf.insert
    rw [he]
  refine ⟨hfst, ?_, ?_⟩
  · unfold Downloader.handlePush
    rcases hi : d.recvBuf.insert seq body with ⟨loc, rb⟩
    have : loc = d.recvBuf.rwnd.location seq := by
      rw [← hfst, hi]
    rcases hl : loc
    · simp [hi, hl] at hfst ⊢
    · simp [hi, hl] at hfst ⊢
    · simp [hi, hl] at hfst ⊢
    · simp [hi, hl] at hfst ⊢
  · intro he
    unfold Downloader.handlePush
    rcases hi : d.recvBuf.insert seq body with ⟨loc, rb⟩
    have hrb : rb = d.recvBuf := by
      have := hearly he
      rw [hi] at this
      exact this
    have hloc : loc = .tooEarly := by
      rw [hi] at he
      exact he
    subst hloc
    simp [hrb]

/-- Witness for `downloader_push_ack_spec` at a fresh Downloader and a
too-early sequence (capacity 3, sequence 5). -/
theorem downloader_push_ack_spec_witness :
    ((DownloaderBuilder.build 3).recvBuf.insert 5 [7]).1 =
        (DownloaderBuilder.build 3).recvBuf.rwnd.location 5 ∧
      (((DownloaderBuilder.build 3).handlePush 5 [7] []).2 =
        if ((DownloaderBuilder.build 3).recvBuf.insert 5 [7]).1 = .tooEarly
        then [] else [] ++ [5]) ∧
      (((DownloaderBuilder.build 3).recvBuf.insert 5 [7]).1 = .tooEarly →
        ((DownloaderBuilder.build 3).handlePush 5 [7] []).1.recvBuf =
          (DownloaderBuilder.build 3).recvBuf) :=
  downloader_push_ack_spec (DownloaderBuilder.build 3) 5 [7] []

theorem alLookup_eq_none_iff {l : List (Nat × α)} {k : Nat} :
    alLookup k l = none ↔ ∀ p ∈ l, p.1 ≠ k := by
  induction l with
  | nil => simp [alLookup]
  | cons hd tl ih =>
    rcases hd with ⟨k', v'⟩
    by_cases hk : k' = k
    · subst hk
      simp [alLookup]
    · simp [alLookup, hk, ih]

theorem alLookup_some_mem {l : List (Nat × α)} {k : Nat} {v : α}
    (h : alLookup k l = some v) : (k, v) ∈ l := by
  induction l with
  | nil => cases h
  | cons hd tl ih =>
    rcases hd with ⟨k', v'⟩
    by_cases hk : k' = k
    · subst hk
      unfold alLookup at h
      rw [if_pos rfl] at h
      cases h
      simp
    · unfold alLookup at h
      rw [if_neg hk] at h
      simp [ih h]

theorem alInsert_mem {l : List (Nat × α)} {k : Nat} {v : α} {p : Nat × α}
    (h : p ∈ alInsert k v l) : p = (k, v) ∨ p ∈ l := by
  induction l with
  | nil =>
    unfold alInsert at h
    simp at h
    left
    exact h
  | cons hd tl ih =>
    rcases hd with ⟨k', v'⟩
    unfold alInsert at h
    by_cases hk : k' = k
    · rw [if_pos hk] at h
      rcases List.mem_cons.1 h with h' | h'
      · left
        exact h'
      · right
        simp [h']
    · rw [if_neg hk] at h
      rcases List.mem_cons.1 h with h' | h'
      · right
        simp [h']
      · rcases ih h' with h'' | h''
        · left
          exact h''
        · right
          simp [h'']

theorem alKeys_alInsert_mem {l : List (Nat × α)} {k x : Nat} {v : α}
    (h : x ∈ alKeys (alInsert k v l)) : x = k ∨ x ∈ alKeys l := by
  unfold alKeys at h
  rcases List.mem_map.1 h with ⟨p, hp, hx⟩
  rcases alInsert_mem hp with h' | h'
  · left
    rw [← hx, h']
  · right
    unfold alKeys
    exact List.mem_map.2 ⟨p, h', hx⟩

theorem alKeys_alInsert_nodup {l : List (Nat × α)} {k : Nat} {v : α}
    (h : (alKeys l).Nodup) : (alKeys (alInsert k v l)).Nodup := by
  induction l with
  | nil => simp [alInsert, alKeys]
  | cons hd tl ih =>
    rcases hd with ⟨k', v'⟩
    unfold alKeys at h
    simp only [List.map_cons, List.nodup_cons] at h
    obtain ⟨hk', htl⟩ := h
    unfold alInsert
    by_cases hk : k' = k
    · subst hk
      unfold alKeys
      rw [if_pos rfl]
      simp only [List.map_cons, List.nodup_cons]
      exact ⟨hk', htl⟩
    · rw [if_neg hk]
      unfold alKeys
      simp only [List.map_cons, List.nodup_cons]
      constructor
      · intro hc
        rcases alKeys_alInsert_mem hc with h' | h'
        · exact hk h'
        · exact hk' h'
      · exact ih htl

theorem alErase_subset {l : List (Nat × α)} {k : Nat} {p : Nat × α}
    (h : p ∈ alErase k l) : p ∈ l := by
  induction l with
  | nil => cases h
  | cons hd tl ih =>
    rcases hd with ⟨k', v'⟩
    unfold alErase at h
    by_cases hk : k' = k
    · rw [if_pos hk] at h
      simp [h]
    · rw [if_neg hk] at h
      rcases List.mem_cons.1 h with h' | h'
      · simp [h']
      · simp [ih h']

theorem alKeys_alErase_sublist (l : List (Nat × α)) (k : Nat) :
    (alKeys (alErase k l)).Sublist (alKeys l) := by
  induction l with
  | nil => simp [alErase, alKeys]
  | cons hd tl ih =>
    rcases hd with ⟨k', v'⟩
    unfold alErase alKeys
    by_cases hk : k' = k
    · rw [if_pos hk]
      simp only [List.map_cons]
      exact List.sublist_cons_of_sublist _ (List.Sublist.refl _)
    · rw [if_neg hk]
      simp only [List.map_cons]
      exact List.Sublist.cons₂ _ ih

theorem alKeys_alErase_nodup {l : List (Nat × α)} {k : Nat}
    (h : (alKeys l).Nodup) : (alKeys (alErase k l)).Nodup :=
  h.sublist (alKeys_alErase_sublist l k)

theorem alErase_not_mem_keys {l : List (Nat × α)} {k : Nat}
    (h : (alKeys l).Nodup) : k ∉ alKeys (alErase k l) := by
  induction l with
  | nil => simp [alErase, alKeys]
  | cons hd tl ih =>
    rcases hd with ⟨k', v'⟩
    unfold alKeys at h
    simp only [List.map_cons, List.nodup_cons] at h
    obtain ⟨hk', htl⟩ := h
    unfold alErase
    by_cases hk : k' = k
    · subst hk
      rw [if_pos rfl]
      exact hk'
    · rw [if_neg hk]
      unfold alKeys
      simp only [List.map_cons, List.mem_cons]
      intro hc
      rcases hc with hc | hc
      · exact hk hc.symm
      · exact ih htl hc

theorem alErase_length {l : List (Nat × α)} {k : Nat} {v : α}
    (h : alLookup k l = some v) : (alErase k l).length + 1 = l.length := by
  induction l with
  | nil => cases h
  | cons hd tl ih =>
    rcases hd with ⟨k', v'⟩
    unfold alLookup at h
    unfold alErase
    by_cases hk : k' = k
    · rw [if_pos hk] at h ⊢
      simp
    · rw [if_neg hk] at h ⊢
      simp only [List.length_cons]
      rw [← ih h]

theorem sdist_succ {a k : Nat} (ha : a < w32) (hk : k < w32)
    (h : 0 < sdist a k) : sdist (Seq32.addUsize a 1) k = sdist a k - 1 := by
  unfold sdist Seq32.addUsize w32 at *
  omega

theorem addUsize_lt_w32 (a n : Nat) : Seq32.addUsize a n < w32 := by
  unfold Seq32.addUsize w32
  omega

theorem rwnd_location_inWindow {r : Rwnd α} {seq : Nat} (hstart : r.start < w32)
    (hseq : seq < w32) (hsize : r.size < 2147483648)
    (h : r.location seq = .inRecvWindow) :
    0 < sdist r.start seq ∧ sdist r.start seq < r.size := by
  unfold Rwnd.location at h
  split_ifs at h with h1 h2 h3
  have hble := (seq32_ble_iff hstart hseq).1 h1
  have hblt := (seq32_blt_iff hseq (addUsize_lt_w32 r.start r.size)).1 h2
  have hne : ¬ r.start = seq := h3
  unfold sdist Seq32.addUsize w32 at *
  omega

theorem rwnd_location_atStart {r : Rwnd α} {seq : Nat} (hstart : r.start < w32)
    (hseq : seq < w32) (hsize : r.size < 2147483648)
    (h : r.location seq = .atRecvWindowStart) :
    seq = r.start ∧ 0 < r.size := by
  unfold Rwnd.location at h
  split_ifs at h with h1 h2 h3
  refine ⟨h3.symm, ?_⟩
  have hblt := (seq32_blt_iff hseq (addUsize_lt_w32 r.start r.size)).1 h2
  rw [← h3] at hblt
  unfold sdist Seq32.addUsize w32 at *
  omega

/-- A successful `pop_next` removes the entry at `start`, advances the
window, and preserves the weak key invariant; the free-slot count was
positive and drops by one. -/
theorem rwnd_popNext_some {r r' : Rwnd α} {v : α} (hW : RwndWeakInv r)
    (h : r.popNext = (some v, r')) :
    RwndWeakInv r' ∧ r'.wnd.length + 1 = r.wnd.length ∧ r'.size + 1 = r.size := by
  obtain ⟨hstart, hnodup, hkeys⟩ := hW
  unfold Rwnd.popNext at h
  rcases hl : alLookup r.start r.wnd with _ | v0
  · rw [hl] at h
    cases h
  · rw [hl] at h
    unfold Rwnd.wndProceed at h
    cases h
    have hmem := alLookup_some_mem hl
    have hsize : 0 < r.size := by
      have := hkeys _ hmem
      simp only [] at this
      have h0 : sdist r.start r.start = 0 := by
        unfold sdist w32
        omega
      omega
    refine ⟨⟨addUsize_lt_w32 _ _, alKeys_alErase_nodup hnodup, ?_⟩,
        alErase_length hl, by simp only []; omega⟩
    intro p hp
    have hpl := alErase_subset hp
    obtain ⟨hpw, hpd⟩ := hkeys p hpl
    have hne : p.1 ≠ r.start := by
      intro hc
      apply alErase_not_mem_keys hnodup (l := r.wnd) (k := r.start)
      unfold alKeys
      exact List.mem_map.2 ⟨p, hp, hc⟩
    have hpos : 0 < sdist r.start p.1 := by
      rcases Nat.eq_zero_or_pos (sdist r.start p.1) with h0 | h0
      · exact absurd ((sdist_eq_zero_iff hstart hpw).1 h0).symm hne
      · exact h0
    refine ⟨hpw, ?_⟩
    rw [sdist_succ hstart hpw hpos]
    simp only []
    omega

theorem rwnd_popNext_none {r r' : Rwnd α} (h : r.popNext = (none, r')) :
    r' = r ∧ alLookup r.start r.wnd = none := by
  unfold Rwnd.popNext at h
  rcases hl : alLookup r.start r.wnd with _ | v0
  · rw [hl] at h
    cases h
    exact ⟨rfl, rfl⟩
  · rw [hl] at h
    cases h

/-- The drain loop turns the weak invariant into the strong one and keeps
`size + |acc|` constant (every pop trades one free-slot decrement for one
ready-queue slice). -/
theorem drainLoop_inv :
    ∀ (fuel : Nat) (r : Rwnd α) (acc : List α),
      RwndWeakInv r → r.wnd.length ≤ fuel →
      RwndStrongInv (RecvBuf.drainLoop fuel r acc).1 ∧
        (RecvBuf.drainLoop fuel r acc).1.size +
            (RecvBuf.drainLoop fuel r acc).2.length =
          r.size + acc.length := by
  intro fuel
  induction fuel with
  | zero =>
    intro r acc hW hf
    have hnil : r.wnd = [] := by
      cases hr : r.wnd with
      | nil => rfl
      | cons p l =>
        rw [hr] at hf
        simp at hf
    unfold RecvBuf.drainLoop
    refine ⟨⟨hW, ?_⟩, rfl⟩
    rw [hnil]
    intro p hp
    cases hp
  | succ k ih =>
    intro r acc hW hf
    unfold RecvBuf.drainLoop
    rcases hp : r.popNext with ⟨vo, r2⟩
    rcases vo with _ | v
    · obtain ⟨hr2, hlook⟩ := rwnd_popNext_none hp
      subst hr2
      simp only []
      refine ⟨⟨hW, ?_⟩, ⟨⟩⟩
      intro p hpm
      have hne : p.1 ≠ r2.start := (alLookup_eq_none_iff.1 hlook) p hpm
      obtain ⟨hstart, _, hkeys⟩ := hW
      obtain ⟨hpw, _⟩ := hkeys p hpm
      rcases Nat.eq_zero_or_pos (sdist r2.start p.1) with h0 | h0
      · exact absurd ((sdist_eq_zero_iff hstart hpw).1 h0).symm hne
      · exact h0
    · obtain ⟨hW2, hlen, hsz⟩ := rwnd_popNext_some hW hp
      simp only []
      have hf2 : r2.wnd.length ≤ k := by omega
      obtain ⟨hstrong, hsum⟩ := ih r2 (acc ++ [v]) hW2 hf2
      refine ⟨hstrong, ?_⟩
      rw [hsum]
      simp
      omega

/-- `RecvBuf::insert` preserves the representation invariant (for
sequences below `2^32`) and never changes the capacity `len`. -/
theorem recvBuf_insert_inv {b : RecvBuf α} (hinv : RecvBufInv b)
    {seq : Nat} (hseq : seq < w32) (v : α) :
    RecvBufInv (b.insert seq v).2 ∧ (b.insert seq v).2.len = b.len ∧
      (b.insert seq v).2.rwnd.size + (b.insert seq v).2.sorted.length = b.len := by
  obtain ⟨⟨hW, hstrong⟩, hsum, hlen⟩ := hinv
  obtain ⟨hstart, hnodup, hkeys⟩ := hW
  have hsize : b.rwnd.size < 2147483648 := by omega
  unfold RecvBuf.insert
  rcases hl : b.rwnd.location seq
  case inRecvWindow =>
    obtain ⟨hd0, hds⟩ := rwnd_location_inWindow hstart hseq hsize hl
    simp only []
    refine ⟨⟨⟨⟨hstart, alKeys_alInsert_nodup hnodup, ?_⟩, ?_⟩, hsum, hlen⟩, ⟨⟩, hsum⟩
    · intro p hp
      rcases alInsert_mem hp with h' | h'
      · rw [h']
        exact ⟨hseq, hds⟩
      · exact hkeys p h'
    · intro p hp
      rcases alInsert_mem hp with h' | h'
      · rw [h']
        exact hd0
      · exact hstrong p h'
  case tooLate =>
    exact ⟨⟨⟨⟨hstart, hnodup, hkeys⟩, hstrong⟩, hsum, hlen⟩, rfl, hsum⟩
  case tooEarly =>
    exact ⟨⟨⟨⟨hstart, hnodup, hkeys⟩, hstrong⟩, hsum, hlen⟩, rfl, hsum⟩
  case atRecvWindowStart =>
    obtain ⟨hseqstart, hpos⟩ := rwnd_location_atStart hstart hseq hsize hl
    unfold Rwnd.insertThenPopNext
    rw [if_pos hseqstart]
    simp only []
    set r1 := b.rwnd.wndProceed with hr1
    have hW1 : RwndWeakInv r1 := by
      refine ⟨addUsize_lt_w32 _ _, hnodup, ?_⟩
      intro p hp
      obtain ⟨hpw, hpd⟩ := hkeys p hp
      have hp0 := hstrong p hp
      refine ⟨hpw, ?_⟩
      show sdist (Seq32.addUsize b.rwnd.start 1) p.1 < b.rwnd.size - 1
      rw [sdist_succ hstart hpw hp0]
      omega
    rcases hd : RecvBuf.drainLoop r1.wnd.length r1 (b.sorted ++ [v]) with ⟨r2, sorted2⟩
    obtain ⟨hstrong2, hsum2⟩ := drainLoop_inv r1.wnd.length r1 (b.sorted ++ [v]) hW1
      (le_refl _)
    rw [hd] at hstrong2 hsum2
    simp only [] at hstrong2 hsum2
    have hr1size : r1.size = b.rwnd.size - 1 := rfl
    refine ⟨⟨hstrong2, ?_, hlen⟩, ⟨⟩, ?_⟩
    · show r2.size + sorted2.length = b.len
      rw [hsum2]
      simp
      omega
    · show r2.size + sorted2.length = b.len
      rw [hsum2]
      simp
      omega

theorem readU8_bound {bytes : List Nat} {v : Nat} {rest : List Nat}
    (hb : ∀ x ∈ bytes, x < 256) (h : readU8 bytes = some (v, rest)) :
    ∀ x ∈ rest, x < 256 := by
  rcases bytes with _ | ⟨b0, tl⟩
  · cases h
  · unfold readU8 at h
    cases h
    intro x hx
    exact hb x (by simp [hx])

theorem readU32_bound {bytes : List Nat} {v : Nat} {rest : List Nat}
    (hb : ∀ x ∈ bytes, x < 256) (h : readU32 bytes = some (v, rest)) :
    v < w32 ∧ ∀ x ∈ rest, x < 256 := by
  rcases bytes with _ | ⟨b0, tl⟩
  · cases h
  rcases tl with _ | ⟨b1, tl⟩
  · cases h
  rcases tl with _ | ⟨b2, tl⟩
  · cases h
  rcases tl with _ | ⟨b3, tl⟩
  · cases h
  unfold readU32 at h
  cases h
  constructor
  · have h0 := hb b0 (by simp)
    have h1 := hb b1 (by simp)
    have h2 := hb b2 (by simp)
    have h3 := hb b3 (by simp)
    unfold w32
    omega
  · intro x hx
    exact hb x (by simp [hx])

theorem readU16_bound {bytes : List Nat} {v : Nat} {rest : List Nat}
    (hb : ∀ x ∈ bytes, x < 256) (h : readU16 bytes = some (v, rest)) :
    ∀ x ∈ rest, x < 256 := by
  rcases bytes with _ | ⟨b0, tl⟩
  · cases h
  rcases tl with _ | ⟨b1, tl⟩
  · cases h
  unfold readU16 at h
  cases h
  intro x hx
  exact hb x (by simp [hx])

theorem fragHeader_fromBytes_bound {bytes : List Nat} {seq : Nat}
    {cmd : FragHdrCommand} {rest : List Nat} (hb : ∀ x ∈ bytes, x < 256)
    (h : FragHeader.fromBytes bytes = .ok ((seq, cmd), rest)) :
    seq < w32 ∧ ∀ x ∈ rest, x < 256 := by
  unfold FragHeader.fromBytes at h
  rcases h32 : readU32 bytes with _ | ⟨s, r1⟩
  · rw [h32] at h
    cases h
  rw [h32] at h
  simp only [] at h
  obtain ⟨hs, hr1⟩ := readU32_bound hb h32
  rcases h8 : readU8 r1 with _ | ⟨c, r2⟩
  · rw [h8] at h
    cases h
  rw [h8] at h
  simp only [] at h
  have hr2 := readU8_bound hr1 h8
  by_cases hc0 : c = 0
  · rw [if_pos hc0] at h
    rcases h32' : readU32 r2 with _ | ⟨len, r3⟩
    · rw [h32'] at h
      cases h
    rw [h32'] at h
    simp only [] at h
    obtain ⟨_, hr3⟩ := readU32_bound hr2 h32'
    by_cases hl0 : len = 0
    · rw [if_pos hl0] at h
      cases h
    · rw [if_neg hl0] at h
      cases h
      exact ⟨hs, hr3⟩
  · rw [if_neg hc0] at h
    by_cases hc1 : c = 1
    · rw [if_pos hc1] at h
      cases h
      exact ⟨hs, hr2⟩
    · rw [if_neg hc1] at h
      cases h

theorem packetHeader_fromSlice_bound {bytes : List Nat} {hdr : PacketHeader}
    {rest : List Nat} (hb : ∀ x ∈ bytes, x < 256)
    (h : PacketHeader.fromSlice bytes = .ok (hdr, rest)) :
    ∀ x ∈ rest, x < 256 := by
  unfold PacketHeader.fromSlice at h
  rcases h16 : readU16 bytes with _ | ⟨rw, r1⟩
  · rw [h16] at h
    cases h
  rw [h16] at h
  simp only [] at h
  have hr1 := readU16_bound hb h16
  rcases h32 : readU32 r1 with _ | ⟨nk, r2⟩
  · rw [h32] at h
    cases h
  rw [h32] at h
  cases h
  exact (readU32_bound hr1 h32).2

theorem handlePush_inv {d : Downloader} (hinv : RecvBufInv d.recvBuf)
    {seq : Nat} (hseq : seq < w32) (body : List Nat) (acks : List Nat) :
    RecvBufInv (d.handlePush seq body acks).1.recvBuf ∧
      (d.handlePush seq body acks).1.recvBuf.len = d.recvBuf.len := by
  obtain ⟨hinv', hlen, _⟩ := recvBuf_insert_inv hinv hseq body
  unfold Downloader.handlePush
  rcases hi : d.recvBuf.insert seq body with ⟨loc, rb⟩
  rw [hi] at hinv' hlen
  rcases loc
  · exact ⟨hinv', hlen⟩
  · exact ⟨hinv', hlen⟩
  · exact ⟨hinv', hlen⟩
  · exact ⟨hinv', hlen⟩

theorem handleFrags_inv :
    ∀ (fuel : Nat) (d : Downloader) (bytes acks ackedLocal : List Nat),
      RecvBufInv d.recvBuf → (∀ x ∈ bytes, x < 256) →
      RecvBufInv (Downloader.handleFrags fuel d bytes acks ackedLocal).1.recvBuf ∧
        (Downloader.handleFrags fuel d bytes acks ackedLocal).1.recvBuf.len =
          d.recvBuf.len := by
  intro fuel
  induction fuel with
  | zero =>
    intro d bytes acks ackedLocal hinv _
    exact ⟨hinv, rfl⟩
  | succ k ih =>
    intro d bytes acks ackedLocal hinv hb
    unfold Downloader.handleFrags
    by_cases hnil : bytes = []
    · rw [if_pos hnil]
      exact ⟨hinv, rfl⟩
    rw [if_neg hnil]
    rcases hfb : FragHeader.fromBytes bytes with e | ⟨⟨seq, cmd⟩, rest⟩
    · exact ⟨hinv, rfl⟩
    obtain ⟨hseq, hrest⟩ := fragHeader_fromBytes_bound hb hfb
    rcases cmd with len | _
    · simp only []
      by_cases hl0 : len = 0
      · rw [if_pos hl0]
        exact ⟨hinv, rfl⟩
      rw [if_neg hl0]
      rcases htk : takePrecisely len rest with _ | ⟨body, rest'⟩
      · exact ⟨hinv, rfl⟩
      have hrest' : ∀ x ∈ rest', x < 256 := by
        unfold takePrecisely at htk
        by_cases hle : len ≤ rest.length
        · rw [if_pos hle] at htk
          cases htk
          intro x hx
          exact hrest x (List.mem_of_mem_drop hx)
        · rw [if_neg hle] at htk
          cases htk
      simp only []
      rcases hhp : d.handlePush seq body acks with ⟨d1, acks1⟩
      have hp := handlePush_inv hinv hseq body acks
      rw [hhp] at hp
      obtain ⟨hinv1, hlen1⟩ := hp
      simp only [] at hinv1 hlen1 ⊢
      obtain ⟨hinvr, hlenr⟩ := ih d1 rest' acks1 ackedLocal hinv1 hrest'
      exact ⟨hinvr, by rw [hlenr, hlen1]⟩
    · simp only []
      exact ih _ rest acks (ackedLocal ++ [seq]) hinv hrest

/-- Claim C4 (amended): after every successful Downloader packet input,
the returned `local_rwnd_size` satisfies
`local_rwnd_size + |ready queue| = C_r`: the free capacity decreases when
the window start advances (a slice is delivered to the ready queue) and
is restored when the consumer takes a delivered slice; out-of-order
slices held in the window map do not reduce it.  The hypotheses are the
receive-buffer representation invariant (asserted by the source's
`check_rep`) and the inputs being bytes. -/
theorem downloader_rwnd_size_spec (d : Downloader) (bytes : List Nat)
    (hinv : RecvBufInv d.recvBuf) (hbytes : ∀ x ∈ bytes, x < 256) :
    ∀ s d', d.inputPacket bytes = (.ok s, d') →
      RecvBufInv d'.recvBuf ∧ d'.recvBuf.len = d.recvBuf.len ∧
        s.localRwndSize + d'.recvBuf.sorted.length = d.recvBuf.len := by
  intro s d' heq
  unfold Downloader.inputPacket at heq
  rcases hph : PacketHeader.fromSlice bytes with e | ⟨hdr, rest⟩
  · rw [hph] at heq
    cases heq
  rw [hph] at heq
  simp only [] at heq
  have hrest := packetHeader_fromSlice_bound hbytes hph
  rcases hhf : Downloader.handleFrags rest.length d rest [] [] with ⟨d1, changes⟩
  rw [hhf] at heq
  simp only [] at heq
  rw [Prod.mk.injEq] at heq
  obtain ⟨hs, hd'⟩ := heq
  have hs' : s = { remoteRwndSize := hdr.rwnd,
                   remoteNack := hdr.nack,
                   localNextSeqToReceive := d1.recvBuf.nextSeqToReceive,
                   remoteSeqsToAck := changes.remoteSeqsToAck,
                   ackedLocalSeqs := changes.ackedLocalSeqs,
                   localRwndSize := d1.recvBuf.rwndSize } := by
    cases hs
    rfl
  obtain ⟨hinv1, hlen1⟩ := handleFrags_inv rest.length d rest [] [] hinv hrest
  rw [hhf] at hinv1 hlen1
  simp only [] at hinv1 hlen1
  have hrecv : d'.recvBuf = d1.recvBuf := by
    rw [← hd']
  rw [hrecv, hs']
  have hsum := hinv1.2.1
  refine ⟨hinv1, hlen1, ?_⟩
  show d1.recvBuf.rwndSize + d1.recvBuf.sorted.length = d.recvBuf.len
  unfold RecvBuf.rwndSize
  rw [hsum, hlen1]

/-- Witness for `downloader_rwnd_size_spec`: the `c4Bytes` packet into a
fresh capacity-3 Downloader. -/
theorem downloader_rwnd_size_spec_witness :
    RecvBufInv ({ rwnd := { wnd := [(1, [5])], size := 3, start := 0 },
                  sorted := [], len := 3 } : RecvBuf (List Nat)) ∧
      (3 : Nat) = 3 ∧ (3 : Nat) + 0 = 3 :=
  downloader_rwnd_size_spec (DownloaderBuilder.build 3) c4Bytes
    (by unfold RecvBufInv RwndStrongInv RwndWeakInv; decide)
    (by decide)
    { remoteRwndSize := 2, remoteNack := 0, localNextSeqToReceive := 0,
      remoteSeqsToAck := [1], ackedLocalSeqs := [], localRwndSize := 3 }
    { recvBuf := { rwnd := { wnd := [(1, [5])], size := 3, start := 0 },
                   sorted := [], len := 3 },
      leftover := none,
      stat := { latePushes := 0, earlyPushes := 0, outOfOrders := 1,
                decodingErrors := 0, packets := 1, acks := 0, pushes := 1 } }
    (by rfl)

/-- Claim C9: when `set_state` rejects a delta with `InvalidState` (some
acked sequence equals the remote NACK), the Uploader is unchanged: the
validation loop runs before any mutation. -/
theorem uploader_set_state_atomicity (u : Uploader) (delta : SetUploadState)
    (now : Nat) (h : (u.setState delta now).1 = .error .invalidState) :
    (u.setState delta now).2 = u := by
  unfold Uploader.setState at h ⊢
  by_cases hc : delta.ackedLocalSeqs.any (fun a => a = delta.remoteNack) = true
  · rw [if_pos hc]
  · rw [if_neg hc] at h
    rcases happ : Uploader.applyAcked now
        { u.setRemoteRwndSize delta.remoteRwndSize with
          localNextSeqToReceive := delta.localNextSeqToReceive,
          localRwndSize := delta.localRwndSize } delta.ackedLocalSeqs none
      with ⟨u4, m⟩
    simp only [happ] at h
    cases h

/-- Witness for `uploader_set_state_atomicity`: a delta that both acks
sequence 0 and reports it as the NACK is rejected without touching the
default-built Uploader. -/
theorem uploader_set_state_atomicity_witness :
    (defaultUploader.setState
        { remoteRwndSize := 9, remoteNack := 0, localNextSeqToReceive := 0,
          remoteSeqsToAck := [], ackedLocalSeqs := [0], localRwndSize := 0 }
        0).2 = defaultUploader :=
  uploader_set_state_atomicity defaultUploader
    { remoteRwndSize := 9, remoteNack := 0, localNextSeqToReceive := 0,
      remoteSeqsToAck := [], ackedLocalSeqs := [0], localRwndSize := 0 }
    0 (by rfl)

/-- Claim C8: the send window admits new sends (is not full) iff
`size < min(max(remote_rwnd, 1), swnd_size_cap)`, where `size` is the
wrap-aware distance from the oldest in-flight sequence to the next
sequence to allocate; and when the window is full the new-send loop of
`emit` packs nothing and changes nothing. -/
theorem swnd_admission_spec :
    (∀ (s : Swnd SendingPush),
        s.isFull = false ↔
          s.size < Nat.min (Nat.max s.remoteRwndSize 1) s.wndSizeCap) ∧
      ∀ (fuel now space : Nat) (u : Uploader) (b : FragBundler),
        u.swnd.isFull = true →
        Uploader.newSendLoop fuel now space u b = .ok (u, b) := by
  constructor
  · intro s
    unfold Swnd.isFull
    rw [Bool.or_eq_false_iff, decide_eq_false_iff_not, decide_eq_false_iff_not,
      Nat.lt_min]
    omega
  · intro fuel now space u b hfull
    cases fuel with
    | zero => rfl
    | succ n =>
      unfold Uploader.newSendLoop
      rw [if_neg (by
        intro hc
        exact hc.2 hfull)]

/-- Witness for `swnd_admission_spec`: `uploaderZero`'s send window has
cap 0, hence it is full and the new-send loop is the identity. -/
theorem swnd_admission_spec_witness :
    Uploader.newSendLoop 3 0 506 uploaderZero (FragBundler.new 506) =
      .ok (uploaderZero, FragBundler.new 506) :=
  swnd_admission_spec.2 3 0 506 uploaderZero (FragBundler.new 506) (by decide)

theorem fragBundler_new_inv (space : Nat) : (FragBundler.new space).inv := by
  refine ⟨?_, rfl, by simp [FragBundler.new]⟩
  intro bundle hb
  cases hb

theorem bundleWireLen_append (l : List Frag) (f : Frag) :
    bundleWireLen (l ++ [f]) = bundleWireLen l + f.len := by
  unfold bundleWireLen
  simp

theorem fragBundler_pack_inv {b b' : FragBundler} {f : Frag} (hinv : b.inv)
    (h : b.pack f = .ok b') :
    b'.inv ∧ b'.eachBundleSpace = b.eachBundleSpace := by
  obtain ⟨hbundles, hload, hlen⟩ := hinv
  unfold FragBundler.pack at h
  by_cases h1 : f.len ≤ b.eachBundleSpace
  · rw [if_neg (not_not.2 h1)] at h
    by_cases h2 : f.len + b.loadingLen ≤ b.eachBundleSpace
    · rw [if_neg (not_not.2 h2)] at h
      cases h
      refine ⟨⟨hbundles, ?_, by simp only []; omega⟩, rfl⟩
      rw [bundleWireLen_append, hload]
    · rw [if_pos h2] at h
      cases h
      refine ⟨⟨?_, ?_, by simp only []; omega⟩, rfl⟩
      · intro bundle hb
        rcases List.mem_append.1 hb with hb' | hb'
        · exact hbundles bundle hb'
        · have hbl : bundle = b.loadingBundle := by
            simp at hb'
            exact hb'
          subst hbl
          have hpos : 0 < b.loadingLen := by omega
          constructor
          · intro hc
            rw [hc] at hload
            unfold bundleWireLen at hload
            simp at hload
            omega
          · rw [hload]
            exact hlen
      · unfold bundleWireLen
        simp
  · rw [if_pos h1] at h
    cases h

theorem fragBundler_intoBundles_bound {b : FragBundler} (hinv : b.inv) :
    ∀ bundle ∈ b.intoBundles,
      bundle ≠ [] ∧ bundleWireLen bundle ≤ b.eachBundleSpace := by
  obtain ⟨hbundles, hload, hlen⟩ := hinv
  intro bundle hb
  unfold FragBundler.intoBundles at hb
  by_cases hpos : 0 < b.loadingLen
  · rw [if_pos hpos] at hb
    rcases List.mem_append.1 hb with hb' | hb'
    · exact hbundles bundle hb'
    · have hbl : bundle = b.loadingBundle := by
        simp at hb'
        exact hb'
      subst hbl
      constructor
      · intro hc
        rw [hc] at hload
        unfold bundleWireLen at hload
        simp at hload
        omega
      · rw [hload]
        exact hlen
  · rw [if_neg hpos] at hb
    exact hbundles bundle hb

theorem emitAcks_bundler_inv :
    ∀ (l : List Nat) (st : UploaderStat) (b : FragBundler)
      (st' : UploaderStat) (b' : FragBundler), b.inv →
      Uploader.emitAcks l st b = .ok (st', b') →
      b'.inv ∧ b'.eachBundleSpace = b.eachBundleSpace := by
  intro l
  induction l with
  | nil =>
    intro st b st' b' hinv h
    cases h
    exact ⟨hinv, rfl⟩
  | cons a rest ih =>
    intro st b st' b' hinv h
    unfold Uploader.emitAcks at h
    rcases hp : b.pack { seq := a, cmd := .ack } with e | b1
    · rw [hp] at h
      cases h
    · rw [hp] at h
      obtain ⟨hinv1, hsp1⟩ := fragBundler_pack_inv hinv hp
      obtain ⟨hinv', hsp'⟩ := ih _ _ _ _ hinv1 h
      exact ⟨hinv', by rw [hsp', hsp1]⟩

theorem fastLoop_bundler_inv :
    ∀ (l : List (Nat × SendingPush)) (now : Nat) (u : Uploader)
      (b : FragBundler) (u' : Uploader) (b' : FragBundler), b.inv →
      Uploader.fastLoop l now u b = .ok (u', b') →
      b'.inv ∧ b'.eachBundleSpace = b.eachBundleSpace := by
  intro l
  induction l with
  | nil =>
    intro now u b u' b' hinv h
    cases h
    exact ⟨hinv, rfl⟩
  | cons e rest ih =>
    intro now u b u' b' hinv h
    rcases e with ⟨seq, push⟩
    unfold Uploader.fastLoop at h
    rcases hp : b.pack { seq := seq, cmd := .push push.body } with e' | b1
    · rw [hp] at h
      cases h
    · rw [hp] at h
      simp only [] at h
      obtain ⟨hinv1, hsp1⟩ := fragBundler_pack_inv hinv hp
      rcases hh : heapSetPriority seq (push.toRetransmit now).lastSent
          u.lastSentHeap with _ | heap'
      · rw [hh] at h
        cases h
      · rw [hh] at h
        simp only [] at h
        obtain ⟨hinv', hsp'⟩ := ih _ _ _ _ _ hinv1 h
        exact ⟨hinv', by rw [hsp', hsp1]⟩

theorem rtoLoop_bundler_inv :
    ∀ (fuel now rto : Nat) (u : Uploader) (b : FragBundler)
      (u' : Uploader) (b' : FragBundler), b.inv →
      Uploader.rtoLoop fuel now rto u b = .ok (u', b') →
      b'.inv ∧ b'.eachBundleSpace = b.eachBundleSpace := by
  intro fuel
  induction fuel with
  | zero =>
    intro now rto u b u' b' hinv h
    cases h
    exact ⟨hinv, rfl⟩
  | succ n ih =>
    intro now rto u b u' b' hinv h
    unfold Uploader.rtoLoop at h
    rcases hpk : heapPeek u.lastSentHeap with _ | ⟨seq, lastSent⟩
    · rw [hpk] at h
      cases h
      exact ⟨hinv, rfl⟩
    · rw [hpk] at h
      simp only [] at h
      by_cases hage : now - lastSent < rto
      · rw [if_pos hage] at h
        cases h
        exact ⟨hinv, rfl⟩
      rw [if_neg hage] at h
      rcases hv : u.swnd.value seq with _ | push
      · rw [hv] at h
        exact ih _ _ _ _ _ _ hinv h
      · rw [hv] at h
        simp only [] at h
        rcases hp : b.pack { seq := seq, cmd := .push push.body } with e' | b1
        · rw [hp] at h
          cases h
        · rw [hp] at h
          simp only [] at h
          obtain ⟨hinv1, hsp1⟩ := fragBundler_pack_inv hinv hp
          rcases hh : heapSetPriority seq (push.toRetransmit now).lastSent
              u.lastSentHeap with _ | heap'
          · rw [hh] at h
            cases h
          · rw [hh] at h
            simp only [] at h
            obtain ⟨hinv', hsp'⟩ := ih _ _ _ _ _ _ hinv1 h
            exact ⟨hinv', by rw [hsp', hsp1]⟩

theorem newSendLoop_bundler_inv :
    ∀ (fuel now space : Nat) (u : Uploader) (b : FragBundler)
      (u' : Uploader) (b' : FragBundler), b.inv →
      Uploader.newSendLoop fuel now space u b = .ok (u', b') →
      b'.inv ∧ b'.eachBundleSpace = b.eachBundleSpace := by
  intro fuel
  induction fuel with
  | zero =>
    intro now space u b u' b' hinv h
    cases h
    exact ⟨hinv, rfl⟩
  | succ n ih =>
    intro now space u b u' b' hinv h
    unfold Uploader.newSendLoop at h
    by_cases hc : ¬ u.toSendQueue.isEmpty = true ∧ ¬ u.swnd.isFull = true
    · rw [if_pos hc] at h
      by_cases hlim : (if pushHdrLen + 1 ≤ b.loadingSpace
          then b.loadingSpace - pushHdrLen else space - pushHdrLen) = 0
      · rw [if_pos hlim] at h
        cases h
      rw [if_neg hlim] at h
      rcases hbb : Uploader.buildBody
          ((if pushHdrLen + 1 ≤ b.loadingSpace then b.loadingSpace - pushHdrLen
            else space - pushHdrLen) + u.toSendQueue.queue.length)
          (if pushHdrLen + 1 ≤ b.loadingSpace then b.loadingSpace - pushHdrLen
            else space - pushHdrLen) [] u.toSendQueue with ⟨body, q'⟩
      rw [hbb] at h
      simp only [] at h
      by_cases hbody : body = []
      · rw [if_pos hbody] at h
        cases h
      rw [if_neg hbody] at h
      rcases hp : b.pack { seq := u.swnd.endSeq, cmd := .push body } with e' | b1
      · rw [hp] at h
        cases h
      · rw [hp] at h
        obtain ⟨hinv1, hsp1⟩ := fragBundler_pack_inv hinv hp
        obtain ⟨hinv', hsp'⟩ := ih _ _ _ _ _ _ hinv1 h
        exact ⟨hinv', by rw [hsp', hsp1]⟩
    · rw [if_neg hc] at h
      cases h
      exact ⟨hinv, rfl⟩

theorem emitFrags_bundles_bound {u : Uploader} {space now : Nat}
    {bundles : List (List Frag)} {u' : Uploader}
    (h : u.emitFrags space now = .ok (bundles, u')) :
    ∀ bundle ∈ bundles, bundle ≠ [] ∧ bundleWireLen bundle ≤ space := by
  unfold Uploader.emitFrags at h
  simp only [] at h
  rcases h1 : Uploader.emitAcks u.toAckQueue u.stat (FragBundler.new space)
    with e | ⟨st1, b1⟩
  · rw [h1] at h
    cases h
  rw [h1] at h
  obtain ⟨hinv1, hsp1⟩ := emitAcks_bundler_inv _ _ _ _ _ (fragBundler_new_inv space) h1
  simp only [] at h
  rcases h2 : (if ({ u with toAckQueue := [], stat := st1 }
      : Uploader).fastRetransmissionWnd.isEmpty = false then
        Uploader.fastLoop
          (({ u with toAckQueue := [], stat := st1 } : Uploader).swnd.range
            ({ u with toAckQueue := [], stat := st1 }
              : Uploader).fastRetransmissionWnd.start
            ({ u with toAckQueue := [], stat := st1 }
              : Uploader).fastRetransmissionWnd.endSeq) now
          { u with toAckQueue := [], stat := st1 } b1
      else .ok ({ u with toAckQueue := [], stat := st1 }, b1))
    with e | ⟨u2, b2⟩
  · rw [h2] at h
    cases h
  rw [h2] at h
  simp only [] at h
  have hstep2 : b2.inv ∧ b2.eachBundleSpace = b1.eachBundleSpace := by
    by_cases hfe : ({ u with toAckQueue := [], stat := st1 }
        : Uploader).fastRetransmissionWnd.isEmpty = false
    · rw [if_pos hfe] at h2
      exact fastLoop_bundler_inv _ _ _ _ _ _ hinv1 h2
    · rw [if_neg hfe] at h2
      cases h2
      exact ⟨hinv1, rfl⟩
  obtain ⟨hinv2, hsp2⟩ := hstep2
  rcases h3 : (if u2.disableRto = false then
      Uploader.rtoLoop u2.lastSentHeap.length now u2.rto u2 b2
    else .ok (u2, b2)) with e | ⟨u3, b3⟩
  · rw [h3] at h
    cases h
  rw [h3] at h
  simp only [] at h
  have hstep3 : b3.inv ∧ b3.eachBundleSpace = b2.eachBundleSpace := by
    by_cases hrto : u2.disableRto = false
    · rw [if_pos hrto] at h3
      exact rtoLoop_bundler_inv _ _ _ _ _ _ _ hinv2 h3
    · rw [if_neg hrto] at h3
      cases h3
      exact ⟨hinv2, rfl⟩
  obtain ⟨hinv3, hsp3⟩ := hstep3
  rcases h4 : Uploader.newSendLoop (queueBytes u3.toSendQueue + 1) now space u3 b3
    with e | ⟨u4, b4⟩
  · rw [h4] at h
    cases h
  rw [h4] at h
  simp only [] at h
  obtain ⟨hinv4, hsp4⟩ := newSendLoop_bundler_inv _ _ _ _ _ _ _ hinv3 h4
  cases h
  have hspace : b4.eachBundleSpace = space := by
    rw [hsp4, hsp3, hsp2, hsp1]
    rfl
  intro bundle hb
  have := fragBundler_intoBundles_bound hinv4 bundle hb
  rw [hspace] at this
  exact this

theorem encodeFrags_length (fs : List Frag) :
    (encodeFrags fs).length = bundleWireLen fs := by
  induction fs with
  | nil => rfl
  | cons f rest ih =>
    unfold encodeFrags bundleWireLen
    simp only [List.length_append, List.map_cons, List.sum_cons]
    rw [frag_appendTo_length f, ih]
    rfl

theorem packet_appendTo_length (p : Packet) :
    (Packet.appendTo p).length = packetHdrLen + bundleWireLen p.frags := by
  unfold Packet.appendTo PacketHeader.appendTo u16Bytes u32Bytes packetHdrLen
  simp [encodeFrags_length]
  omega

/-- Claim C10: every packet returned by a successful `Uploader::emit` has
at least one fragment, and its wire size (6-byte header plus the encoded
fragments) is at most the configured MTU.  `emit_packets` itself rejects
a buffer below `packet_header + push_header + 1` bytes, so no separate
construction precondition is needed: any state on which `emit` returns
packets satisfies the bound. -/
theorem emit_packet_bounds (u : Uploader) (now : Nat) (packets : List Packet)
    (u' : Uploader) (h : u.emit now = .ok (packets, u')) :
    ∀ p ∈ packets, p.frags ≠ [] ∧ (Packet.appendTo p).length ≤ u.mtu := by
  unfold Uploader.emit Uploader.emitPackets at h
  by_cases h1 : packetHdrLen + ackHdrLen ≤ u.mtu
  swap
  · rw [if_pos h1] at h
    cases h
  rw [if_neg (not_not.2 h1)] at h
  by_cases h2 : packetHdrLen + pushHdrLen + 1 ≤ u.mtu
  swap
  · rw [if_pos h2] at h
    cases h
  rw [if_neg (not_not.2 h2)] at h
  rcases hef : u.emitFrags (u.mtu - packetHdrLen) now with e | ⟨bundles, u1⟩
  · rw [hef] at h
    cases h
  rw [hef] at h
  cases h
  intro p hp
  rcases List.mem_map.1 hp with ⟨frags, hfr, hpeq⟩
  obtain ⟨hne, hbound⟩ := emitFrags_bundles_bound hef frags hfr
  subst hpeq
  constructor
  · exact hne
  · rw [packet_appendTo_length]
    simp only []
    unfold packetHdrLen pushHdrLen ackHdrLen at *
    omega

/-- Witness for `emit_packet_bounds`: the default-built Uploader with one
queued ACK emits exactly one packet holding that ACK. -/
theorem emit_packet_bounds_witness :
    ({ hdr := { rwnd := 65535, nack := 0 },
       frags := [{ seq := 4, cmd := .ack }] } : Packet).frags ≠ [] ∧
      (Packet.appendTo { hdr := { rwnd := 65535, nack := 0 },
                         frags := [{ seq := 4, cmd := .ack }] }).length ≤
        ({ defaultUploader with toAckQueue := [4] } : Uploader).mtu :=
  emit_packet_bounds { defaultUploader with toAckQueue := [4] } 0
    [{ hdr := { rwnd := 65535, nack := 0 }, frags := [{ seq := 4, cmd := .ack }] }]
    { defaultUploader with
      toAckQueue := []
      stat := { srtt := none, retransmissions := 0, rtoHits := 0,
                fastRetransmissions := 0, pushes := 0, acks := 1 } }
    (by rfl)
    { hdr := { rwnd := 65535, nack := 0 }, frags := [{ seq := 4, cmd := .ack }] }
    (by simp)

theorem fastWnd_try_absorb {w : FastRetransmissionWnd} {a b : Nat} (hab : b ≠ a)
    (h : w.isEmpty = false) : (w.trySetBoundaries a b).isEmpty = false := by
  simp only [FastRetransmissionWnd.trySetBoundaries]
  by_cases hact : (w.duplicateThreshold.set a).isActivated = true
  · rw [if_pos hact]
    simp [FastRetransmissionWnd.isEmpty, hab]
  · rw [if_neg hact]
    exact h

theorem iter_pre_zero (t s : Nat) :
    ∀ k, k < Nat.max t 1 →
      iterTrySetBoundaries (FastRetransmissionWnd.new t) 0 s k =
        { start := 0, endSeq := 0,
          duplicateThreshold := { duplicate := { value := 0, count := k },
                                  dupThresholdToActivate := t } } := by
  intro k
  induction k with
  | zero =>
    intro _
    rfl
  | succ k ih =>
    intro hk
    have hk' : k < Nat.max t 1 := by omega
    unfold iterTrySetBoundaries
    rw [ih hk']
    simp only [FastRetransmissionWnd.trySetBoundaries, DuplicateThreshold.set,
      ConsecutiveDuplicateCount.set, DuplicateThreshold.isActivated]
    rw [if_pos trivial]
    simp only []
    rw [if_neg (by
      rw [decide_eq_true_eq]
      rcases Nat.le_total t 1 with hmt | hmt
      · have hm : Nat.max t 1 = 1 := Nat.max_eq_right hmt
        rw [hm] at hk
        omega
      · have hm : Nat.max t 1 = t := Nat.max_eq_left hmt
        rw [hm] at hk
        omega)]

theorem iter_pre_nz (t N s : Nat) (hN : ¬ N = 0) :
    ∀ k, 1 ≤ k → k < t + 1 →
      iterTrySetBoundaries (FastRetransmissionWnd.new t) N s k =
        { start := 0, endSeq := 0,
          duplicateThreshold := { duplicate := { value := N, count := k - 1 },
                                  dupThresholdToActivate := t } } := by
  intro k
  induction k with
  | zero =>
    intro h1 _
    omega
  | succ k ih =>
    intro _ hk
    unfold iterTrySetBoundaries
    by_cases hk0 : k = 0
    · subst hk0
      show (FastRetransmissionWnd.new t).trySetBoundaries N s = _
      simp only [FastRetransmissionWnd.trySetBoundaries, DuplicateThreshold.set,
        ConsecutiveDuplicateCount.set, DuplicateThreshold.isActivated,
        FastRetransmissionWnd.new, DuplicateThreshold.new,
        ConsecutiveDuplicateCount.new]
      rw [if_neg hN]
      simp only []
      rw [if_neg (by
        rw [decide_eq_true_eq]
        omega)]
    · rw [ih (by omega) (by omega)]
      simp only [FastRetransmissionWnd.trySetBoundaries, DuplicateThreshold.set,
        ConsecutiveDuplicateCount.set, DuplicateThreshold.isActivated]
      rw [if_pos trivial]
      simp only []
      rw [if_neg (by
        rw [decide_eq_true_eq]
        omega)]
      have : k - 1 + 1 = k + 1 - 1 := by omega
      rw [this]

theorem iter_active (t N s : Nat) (hs : s ≠ N) :
    ∀ k, (if N = 0 then Nat.max t 1 else t + 1) ≤ k →
      (iterTrySetBoundaries (FastRetransmissionWnd.new t) N s k).isEmpty = false := by
  intro k
  induction k with
  | zero =>
    intro hk
    by_cases hN : N = 0
    · rw [if_pos hN] at hk
      have hmx : 1 ≤ Nat.max t 1 := Nat.le_max_right t 1
      omega
    · rw [if_neg hN] at hk
      omega
  | succ k ih =>
    intro hk
    by_cases hA : (if N = 0 then Nat.max t 1 else t + 1) ≤ k
    · exact fastWnd_try_absorb hs (ih hA)
    · by_cases hN : N = 0
      · rw [if_pos hN] at hk hA
        subst hN
        have hklt : k < Nat.max t 1 := by omega
        unfold iterTrySetBoundaries
        rw [iter_pre_zero t s k hklt]
        simp only [FastRetransmissionWnd.trySetBoundaries, DuplicateThreshold.set,
          ConsecutiveDuplicateCount.set, DuplicateThreshold.isActivated]
        rw [if_pos trivial]
        simp only []
        rw [if_pos (by
          rw [decide_eq_true_eq]
          have hmx : t ≤ Nat.max t 1 := Nat.le_max_left t 1
          omega)]
        simp [FastRetransmissionWnd.isEmpty, hs]
      · rw [if_neg hN] at hk hA
        have hkt : k = t := by omega
        subst hkt
        unfold iterTrySetBoundaries
        by_cases ht0 : k = 0
        · subst ht0
          show ((FastRetransmissionWnd.new 0).trySetBoundaries N s).isEmpty = false
          simp only [FastRetransmissionWnd.trySetBoundaries, DuplicateThreshold.set,
            ConsecutiveDuplicateCount.set, DuplicateThreshold.isActivated,
            FastRetransmissionWnd.new, DuplicateThreshold.new,
            ConsecutiveDuplicateCount.new]
          rw [if_neg hN]
          simp only []
          rw [if_pos (by rw [decide_eq_true_eq])]
          simp [FastRetransmissionWnd.isEmpty, hs]
        · rw [iter_pre_nz k N s hN k (by omega) (by omega)]
          simp only [FastRetransmissionWnd.trySetBoundaries, DuplicateThreshold.set,
            ConsecutiveDuplicateCount.set, DuplicateThreshold.isActivated]
          rw [if_pos trivial]
          simp only []
          rw [if_pos (by
            rw [decide_eq_true_eq]
            omega)]
          simp [FastRetransmissionWnd.isEmpty, hs]

/-- Claim C1 (amended): with duplicate threshold `t`, iterating
`try_set_boundaries(N..s)` — one call per qualifying `set_state` delta
(same NACK `N`, some acked sequence `s` above it) — activates the
fast-retransmission window exactly from the `(t+1)`-th delta on when
`N ≠ 0`, but already from the `max(t,1)`-th delta on when `N = 0`: the
counter is born tracking sequence 0 with count 0, so the first delta
whose NACK is 0 already counts as a duplicate of the initial value. -/
theorem fast_retransmit_trigger_spec (t N s : Nat) (hs : s ≠ N) (k : Nat) :
    (iterTrySetBoundaries (FastRetransmissionWnd.new t) N s k).isEmpty = false ↔
      (if N = 0 then Nat.max t 1 else t + 1) ≤ k := by
  constructor
  · intro h
    by_contra hlt
    rw [Nat.not_le] at hlt
    by_cases hN : N = 0
    · rw [if_pos hN] at hlt
      subst hN
      rw [iter_pre_zero t s k hlt] at h
      simp [FastRetransmissionWnd.isEmpty] at h
    · rw [if_neg hN] at hlt
      by_cases hk0 : k = 0
      · subst hk0
        simp [iterTrySetBoundaries, FastRetransmissionWnd.new,
          FastRetransmissionWnd.isEmpty] at h
      · rw [iter_pre_nz t N s hN k (by omega) (by omega)] at h
        simp [FastRetransmissionWnd.isEmpty] at h
  · exact iter_active t N s hs k

/-- Witness for `fast_retransmit_trigger_spec` at `t = 1`, `N = 5`,
`s = 7`, `k = 2`. -/
theorem fast_retransmit_trigger_spec_witness :
    (iterTrySetBoundaries (FastRetransmissionWnd.new 1) 5 7 2).isEmpty = false ↔
      (if (5 : Nat) = 0 then Nat.max 1 1 else 1 + 1) ≤ 2 :=
  fast_retransmit_trigger_spec 1 5 7 (by decide) 2

/-- Claim C1 counterexample: with threshold 1 and `N = 0`, the *first*
delta carrying `remote_nack = 0` and `acked_local_seqs = [1]` already
makes the next `emit` resend sequence 0 (one packet, containing the
original push body `[0,1,2]`) and sets `fast_retransmissions = 1` — the
claim says this happens only for a duplicate of that delta.  (The repo's
`test_fast_retransmit1` asserts the same single-delta resend.) -/
theorem fast_retransmit_c1_counterexample :
    (c1E2.2.setState c1Delta 0).1 = .ok () ∧
      c1E3.1 = [{ hdr := { rwnd := 1, nack := 0 },
                  frags := [{ seq := 0, cmd := .push [0, 1, 2] }] }] ∧
      c1E3.2.stat.fastRetransmissions = 1 := by
  refine ⟨by rfl, by rfl, by rfl⟩

theorem alErase_sublist (k : Nat) (l : List (Nat × α)) :
    (alErase k l).Sublist l := by
  induction l with
  | nil => simp [alErase]
  | cons hd tl ih =>
    rcases hd with ⟨k', v'⟩
    unfold alErase
    by_cases hk : k' = k
    · rw [if_pos hk]
      exact List.sublist_cons_of_sublist _ (List.Sublist.refl _)
    · rw [if_neg hk]
      exact List.Sublist.cons₂ _ ih

theorem setAckedLocalSeq_swnd_sublist (u : Uploader) (a now : Nat) :
    (u.setAckedLocalSeq a now).swnd.wnd.Sublist u.swnd.wnd := by
  unfold Uploader.setAckedLocalSeq Swnd.remove
  rcases hl : alLookup a u.swnd.wnd with _ | v
  · simp only []
    exact List.Sublist.refl _
  · simp only []
    by_cases hr : v.isRetransmitted = false
    · rw [if_pos hr]
      exact alErase_sublist a u.swnd.wnd
    · rw [if_neg hr]
      exact alErase_sublist a u.swnd.wnd

theorem applyAcked_swnd_sublist (now : Nat) :
    ∀ (l : List Nat) (u : Uploader) (m : Option Nat),
      ((Uploader.applyAcked now u l m).1).swnd.wnd.Sublist u.swnd.wnd := by
  intro l
  induction l with
  | nil =>
    intro u m
    exact List.Sublist.refl _
  | cons a rest ih =>
    intro u m
    unfold Uploader.applyAcked
    exact (ih _ _).trans (setAckedLocalSeq_swnd_sublist u a now)

theorem seq32_blt_irrefl (k : Nat) : Seq32.blt k k = false := by
  unfold Seq32.blt Seq32.cmp
  rw [if_neg (lt_irrefl k), if_pos rfl]

/-- A window list sorted under the wrap-around order has pairwise
distinct keys. -/
theorem sorted_keys_nodup {l : List (Nat × α)}
    (hsorted : l.Pairwise (fun p q => Seq32.blt p.1 q.1 = true)) :
    (alKeys l).Nodup := by
  unfold alKeys
  rw [List.nodup_iff_sublist]
  intro x hx
  have hpw : (l.map Prod.fst).Pairwise (fun a b => Seq32.blt a b = true) :=
    List.Pairwise.map _ (fun a b h => h) hsorted
  have := hpw.sublist hx
  rcases List.pairwise_cons.1 this with ⟨hhd, _⟩
  have := hhd x (by simp)
  rw [seq32_blt_irrefl] at this
  cases this

/-- Every key below the NACK (in wrap order) is collected by
`remove_before`'s scan, provided the whole window and the NACK sit in a
common half-window anchored at `base` and the map is sorted: the scan's
early `break` cannot skip it. -/
theorem mem_collectBefore {l : List (Nat × α)} {base nack k : Nat}
    (hbase : base < w32) (hnack : nack < w32)
    (hnackoff : sdist base nack < 2147483648)
    (hkeys : ∀ p ∈ l, p.1 < w32 ∧ sdist base p.1 < 2147483648)
    (hsorted : l.Pairwise (fun p q => Seq32.blt p.1 q.1 = true))
    (hk : k ∈ alKeys l) (hlt : Seq32.blt k nack = true) :
    k ∈ collectBefore nack l := by
  induction l with
  | nil => cases hk
  | cons hd tl ih =>
    rcases hd with ⟨k0, v0⟩
    rcases List.pairwise_cons.1 hsorted with ⟨hhd, htl⟩
    obtain ⟨hk0w, hk0off⟩ := hkeys (k0, v0) (by simp)
    unfold collectBefore
    by_cases hb : Seq32.blt k0 nack = true
    · rw [if_pos hb]
      rcases List.mem_cons.1 hk with hk' | hk'
      · simp only [alKeys, List.map_cons] at hk
        rcases List.mem_cons.1 hk with hv | hv
        · rw [hv]
          simp
        · right
          exact ih (fun p hp => hkeys p (by simp [hp])) htl
            (by unfold alKeys; exact hv)
      · simp only [alKeys, List.map_cons] at hk
        rcases List.mem_cons.1 hk with hv | hv
        · rw [hv]
          simp
        · right
          exact ih (fun p hp => hkeys p (by simp [hp])) htl
            (by unfold alKeys; exact hv)
    · rw [if_neg hb]
      exfalso
      simp only [alKeys, List.map_cons] at hk
      rcases List.mem_cons.1 hk with hv | hv
      · rw [hv] at hlt
        exact hb hlt
      · rcases List.mem_map.1 hv with ⟨p, hp, hpk⟩
        obtain ⟨hkw, hkoff⟩ := hkeys p (by simp [hp])
        have hk0k : Seq32.blt k0 p.1 = true := hhd p hp
        have h1 := (seq32_blt_iff_offsets hbase hk0w hkw hk0off hkoff).1 hk0k
        rw [hpk] at hkw hkoff
        have h2 := (seq32_blt_iff_offsets hbase hkw hnack hkoff hnackoff).1 hlt
        rw [hpk] at h1
        exact hb ((seq32_blt_iff_offsets hbase hk0w hnack hk0off hnackoff).2
          (by omega))

theorem alLookup_none_alErase {l : List (Nat × α)} {k k' : Nat}
    (h : alLookup k l = none) : alLookup k (alErase k' l) = none := by
  rw [alLookup_eq_none_iff] at h ⊢
  intro p hp
  exact h p (alErase_subset hp)

theorem foldl_erase_preserve_none {k : Nat} :
    ∀ (c : List Nat) (l : List (Nat × α)), alLookup k l = none →
      alLookup k (c.foldl (fun w k' => alErase k' w) l) = none := by
  intro c
  induction c with
  | nil =>
    intro l h
    exact h
  | cons c0 rest ih =>
    intro l h
    exact ih _ (alLookup_none_alErase h)

theorem alLookup_none_of_not_mem_keys {l : List (Nat × α)} {k : Nat}
    (h : k ∉ alKeys l) : alLookup k l = none := by
  rw [alLookup_eq_none_iff]
  intro p hp hc
  exact h (by unfold alKeys; exact List.mem_map.2 ⟨p, hp, hc⟩)

theorem foldl_erase_lookup_none {k : Nat} :
    ∀ (c : List Nat) (l : List (Nat × α)), (alKeys l).Nodup → k ∈ c →
      alLookup k (c.foldl (fun w k' => alErase k' w) l) = none := by
  intro c
  induction c with
  | nil =>
    intro l _ hk
    cases hk
  | cons c0 rest ih =>
    intro l hnodup hk
    rcases List.mem_cons.1 hk with hk' | hk'
    · subst hk'
      exact foldl_erase_preserve_none rest _
        (alLookup_none_of_not_mem_keys (alErase_not_mem_keys hnodup))
    · exact ih _ (alKeys_alErase_nodup hnodup) hk'

/-- Claim C5: cumulative-ACK dominance.  For every delta accepted by
`set_state` with `remote_nack = N`, every send-window entry whose
sequence is below `N` in the wrap-around order is removed by that call,
whether or not it appears in `acked_local_seqs` — provided all in-flight
sequences and `N` lie in a common half-window (anchored at `base`) and
the window's `BTreeMap` iteration order is the comparator order, so that
`remove_before`'s early `break` never skips a qualifying key. -/
theorem setState_cumulative_ack (u : Uploader) (delta : SetUploadState)
    (now base : Nat) (hbase : base < w32) (hnack : delta.remoteNack < w32)
    (hnackoff : sdist base delta.remoteNack < 2147483648)
    (hkeys : ∀ p ∈ u.swnd.wnd, p.1 < w32 ∧ sdist base p.1 < 2147483648)
    (hsorted : u.swnd.wnd.Pairwise (fun p q => Seq32.blt p.1 q.1 = true))
    (k : Nat) (hk : k ∈ alKeys u.swnd.wnd)
    (hlt : Seq32.blt k delta.remoteNack = true)
    (hok : (u.setState delta now).1 = .ok ()) :
    alLookup k (u.setState delta now).2.swnd.wnd = none := by
  unfold Uploader.setState at hok ⊢
  by_cases hc : delta.ackedLocalSeqs.any (fun a => a = delta.remoteNack) = true
  · rw [if_pos hc] at hok
    cases hok
  rw [if_neg hc]
  rcases happ : Uploader.applyAcked now
      { u.setRemoteRwndSize delta.remoteRwndSize with
        localNextSeqToReceive := delta.localNextSeqToReceive,
        localRwndSize := delta.localRwndSize } delta.ackedLocalSeqs none
    with ⟨u4, m⟩
  simp only [happ]
  have hsub : u4.swnd.wnd.Sublist u.swnd.wnd := by
    have hs := applyAcked_swnd_sublist now delta.ackedLocalSeqs
      { u.setRemoteRwndSize delta.remoteRwndSize with
        localNextSeqToReceive := delta.localNextSeqToReceive,
        localRwndSize := delta.localRwndSize } none
    rw [happ] at hs
    simpa [Uploader.setRemoteRwndSize, Swnd.setRemoteRwndSize] using hs
  have hkeys4 : ∀ p ∈ u4.swnd.wnd, p.1 < w32 ∧ sdist base p.1 < 2147483648 :=
    fun p hp => hkeys p (hsub.subset hp)
  have hsorted4 := hsorted.sublist hsub
  have hnodup4 := sorted_keys_nodup hsorted4
  have hmain : alLookup k (u4.swnd.removeBefore delta.remoteNack).wnd = none := by
    by_cases hmem : k ∈ alKeys u4.swnd.wnd
    · have hcol := mem_collectBefore hbase hnack hnackoff hkeys4 hsorted4 hmem hlt
      unfold Swnd.removeBefore
      exact foldl_erase_lookup_none _ _ hnodup4 hcol
    · unfold Swnd.removeBefore
      exact foldl_erase_preserve_none _ _ (alLookup_none_of_not_mem_keys hmem)
  rcases m with _ | x
  · exact hmain
  · simp only []
    by_cases hbx : Seq32.blt delta.remoteNack x = true
    · rw [if_pos hbx]
      exact hmain
    · rw [if_neg hbx]
      exact hmain

/-- Witness for `setState_cumulative_ack`: the uploader of the C1 run
(send window holding sequences 0 and 1) accepts a delta with
`remote_nack = 1` and empty `acked_local_seqs`; sequence 0 is removed by
`remove_before` alone. -/
theorem setState_cumulative_ack_witness :
    alLookup 0 ((c1E2.2.setState
        { remoteRwndSize := 9, remoteNack := 1, localNextSeqToReceive := 0,
          remoteSeqsToAck := [], ackedLocalSeqs := [], localRwndSize := 0 }
        0).2.swnd.wnd) = none :=
  setState_cumulative_ack c1E2.2
    { remoteRwndSize := 9, remoteNack := 1, localNextSeqToReceive := 0,
      remoteSeqsToAck := [], ackedLocalSeqs := [], localRwndSize := 0 }
    0 0 (by decide) (by decide) (by decide) (by decide) (by decide) 0
    (by decide) (by decide) (by rfl)

end Ardl

